import Mathlib

/-!
Verification of the scope-annotation extraction and injection pipeline of
`proto/inject-oauth-scopes.py`.

The Python source is shallowly embedded: module-level constant tables become
Lean constants, the `ProtoScopeExtractor` regex pipeline becomes executable
character-list scanners (each regex is compiled to a maximal-munch scanner;
this is sound for the concrete patterns because every quantified character
class in them is disjoint from the character that follows it), and the
`OpenAPIScopesInjector` becomes a pure function on a record model of the
YAML document.  Python `dict`s preserve insertion order, so they are
embedded as association lists together with a `dictSet` operation that
mirrors `d[k] = v` (replace in place, else append).
-/

/-! ## Basic character classes (Python `re` classes, ASCII range) -/

/-- Python `\w`: letters, digits, underscore (ASCII fragment). -/
def isWordChar (c : Char) : Bool :=
  c.isAlphanum || c == '_'

/-- Python `\w` plus `.`, the class used for package names (`[\w.]`). -/
def isWordDot (c : Char) : Bool :=
  isWordChar c || c == '.'

/-- Python `\s`: space, tab, newline, carriage return, vertical tab, form feed. -/
def isPySpace (c : Char) : Bool :=
  c == ' ' || c == '\t' || c == '\n' || c == '\r' || c == '\x0b' || c == '\x0c'

/-! ## Substring and single-character replacement primitives -/

/-- Bool test: does `pat` occur as a contiguous substring of `s`?
Mirrors Python `pat in s`. -/
def containsSub (pat : List Char) : List Char → Bool
  | [] => pat.isPrefixOf []
  | c :: cs => pat.isPrefixOf (c :: cs) || containsSub pat cs

/-- `containsSub` lifted to `String`; mirrors Python `pat in s`. -/
def containsSubStr (pat s : String) : Bool :=
  containsSub pat.data s.data

/-- Python `s.replace(c, '')` for a single-character pattern:
drops every occurrence of the character. -/
def stripChar (c : Char) (s : String) : String :=
  String.mk (s.data.filter (fun x => x != c))

/-- Fuelled worker for `removeSub` (fuel keeps the recursion structural,
so that the kernel can evaluate it; the wrapper supplies enough fuel). -/
def removeSubFuel (pat : List Char) : Nat → List Char → List Char
  | _, [] => []
  | 0, s => s
  | fuel + 1, c :: cs =>
    if pat.isPrefixOf (c :: cs) then
      removeSubFuel pat fuel (cs.drop (pat.length - 1))
    else
      c :: removeSubFuel pat fuel cs

/-- Python `s.replace(pat, '')` for a non-empty pattern: removes every
occurrence, scanning left to right, non-overlapping. -/
def removeSubStr (pat s : String) : String :=
  String.mk (removeSubFuel pat.data s.data.length s.data)

/-- Python `s.lower()` (ASCII fragment). -/
def pyLower (s : String) : String :=
  String.mk (s.data.map Char.toLower)

/-- Worker for `pyTitle`: the flag records whether the previous character
was a cased (alphabetic) character. -/
def pyTitleAux : Bool → List Char → List Char
  | _, [] => []
  | prevAlpha, c :: cs =>
    (if c.isAlpha then (if prevAlpha then c.toLower else c.toUpper) else c)
      :: pyTitleAux c.isAlpha cs

/-- Python `s.title()` (ASCII fragment): a letter is uppercased when the
preceding character is not a letter, lowercased otherwise. -/
def pyTitle (s : String) : String :=
  String.mk (pyTitleAux false s.data)

/-- Python `s.split('\n')[0]`: the text before the first newline. -/
def firstLine (s : String) : String :=
  String.mk (s.data.takeWhile (fun c => c != '\n'))

/-- Python `s.strip()`: remove leading and trailing whitespace. -/
def pyStrip (s : String) : String :=
  String.mk (((s.data.dropWhile isPySpace).reverse.dropWhile isPySpace).reverse)

/-- Python `', '.join(l)`. -/
def joinComma (l : List String) : String :=
  String.intercalate ", " l

/-- Python `d[k] = v` on an insertion-ordered dict rendered as an
association list: replace the value in place if the key exists,
otherwise append the binding at the end. -/
def dictSet {α : Type} (d : List (String × α)) (k : String) (v : α) :
    List (String × α) :=
  match d with
  | [] => [(k, v)]
  | (k', v') :: rest =>
    if k' = k then (k, v) :: rest else (k', v') :: dictSet rest k v

/-! ## The fact model and the static tables

`ScopeFact` is the tuple stored by `ProtoScopeExtractor.method_scopes`:
`(resource, level, oauth_scopes)`.  `FactTable` is the insertion-ordered
dict `method_scopes` keyed by `package.Service/Method`. -/

abbrev ScopeFact := String × String × List String

abbrev FactTable := List (String × ScopeFact)

/-- `SCOPE_MAPPING` from the source: default OAuth scopes per
(resource type, access level) pair. -/
def SCOPE_MAPPING : List ((String × String) × List String) :=
  [ (("RESOURCE_TYPE_ACCOUNT", "ACCESS_LEVEL_READ"), ["read:user", "read:organizations"]),
    (("RESOURCE_TYPE_ACCOUNT", "ACCESS_LEVEL_WRITE"), ["write:user"]),
    (("RESOURCE_TYPE_ACCOUNT", "ACCESS_LEVEL_ADMIN"), ["write:user"]),
    (("RESOURCE_TYPE_ORGANIZATION", "ACCESS_LEVEL_READ"), ["read:organization"]),
    (("RESOURCE_TYPE_ORGANIZATION", "ACCESS_LEVEL_WRITE"), ["write:organization", "read:organization"]),
    (("RESOURCE_TYPE_ORGANIZATION", "ACCESS_LEVEL_ADMIN"),
      ["delete:organization", "write:organization", "read:organization", "manage_secrets"]),
    (("RESOURCE_TYPE_PROJECT", "ACCESS_LEVEL_READ"), ["read:project"]),
    (("RESOURCE_TYPE_PROJECT", "ACCESS_LEVEL_WRITE"), ["write:project", "read:project"]),
    (("RESOURCE_TYPE_PROJECT", "ACCESS_LEVEL_ADMIN"),
      ["delete:project", "write:project", "read:project", "manage_secrets"]),
    (("RESOURCE_TYPE_SITE", "ACCESS_LEVEL_READ"), ["read:site"]),
    (("RESOURCE_TYPE_SITE", "ACCESS_LEVEL_WRITE"), ["write:site", "read:site"]),
    (("RESOURCE_TYPE_SITE", "ACCESS_LEVEL_ADMIN"),
      ["delete:site", "write:site", "read:site", "manage_secrets"]) ]

/-- Python `SCOPE_MAPPING.get((resource, level), [])`. -/
def scopeMappingGet (key : String × String) : List String :=
  match SCOPE_MAPPING.lookup key with
  | some v => v
  | none => []

/-- `SCOPE_DESCRIPTIONS` from the source: scope name to human description. -/
def SCOPE_DESCRIPTIONS : List (String × String) :=
  [ ("read:user", "Read user account information"),
    ("write:user", "Update user account information"),
    ("read:organizations", "Read user\x27s organizations"),
    ("read:organization", "Read organization details"),
    ("write:organization", "Update organization"),
    ("delete:organization", "Delete organization"),
    ("read:projects", "Read organization projects"),
    ("create:projects", "Create organization projects"),
    ("write:projects", "Update organization projects"),
    ("delete:projects", "Delete organization projects"),
    ("read:members", "Read organization/project/site members"),
    ("write:members", "Manage organization/project/site members"),
    ("delete:members", "Remove organization/project/site members"),
    ("read:invoices", "Read organization invoices"),
    ("read:firewall", "Read firewall rules"),
    ("write:firewall", "Update firewall rules"),
    ("delete:firewall", "Delete firewall rules"),
    ("read:site", "Read site details"),
    ("write:site", "Update site configuration"),
    ("delete:site", "Delete site"),
    ("read:sites", "Read project sites"),
    ("write:sites", "Update project sites"),
    ("delete:sites", "Delete project sites"),
    ("promote_sites", "Promote sites between environments"),
    ("read:project", "Read project details"),
    ("write:project", "Update project"),
    ("delete:project", "Delete project"),
    ("manage_secrets", "Read, write, and delete secrets"),
    ("admin:system", "Full system administrative access") ]

/-- `resource_hierarchy` from `_add_operation_scope`: display rows per
lowercased resource type. -/
def resource_hierarchy : List (String × List String) :=
  [ ("account", ["Account"]),
    ("organization", ["Organization"]),
    ("project", ["Organization", "Project"]),
    ("site", ["Organization", "Project", "Site"]) ]

/-- Python `resource_hierarchy.get(resource_str, [resource_str.title()])`. -/
def hierarchyGet (resourceStr : String) : List String :=
  match resource_hierarchy.lookup resourceStr with
  | some v => v
  | none => [pyTitle resourceStr]

/-! ## The document model

Only the fields the injector reads or writes are modelled; everything
else in the YAML document is untouched by the code. -/

/-- One OpenAPI operation.  `security` is a list of single-key
requirement dicts, each rendered as (scheme name, scope list). -/
structure Operation where
  operationId : Option String
  summary : Option String
  description : Option String
  security : Option (List (String × List String))
  xScopes : Option (List String)
  xAuthType : Option String
  xMinAccessLevel : Option String
deriving DecidableEq, Repr

/-- The `authorizationCode` flow object of the OAuth2 scheme. -/
structure AuthCodeFlow where
  authorizationUrl : String
  tokenUrl : String
  scopes : List (String × String)
deriving DecidableEq, Repr

/-- One entry of `components.securitySchemes`. -/
structure SchemeDef where
  type : String
  description : Option String
  scheme : Option String
  bearerFormat : Option String
  flows : Option (List (String × AuthCodeFlow))
deriving DecidableEq, Repr

/-- The `components` section (only `securitySchemes` is touched). -/
structure ComponentsV where
  securitySchemes : Option (List (String × SchemeDef))
deriving DecidableEq, Repr

/-- The whole OpenAPI document (only the parts the script touches). -/
structure OpenAPIDoc where
  paths : Option (List (String × List (String × Operation)))
  components : Option ComponentsV
deriving DecidableEq, Repr

/-- The `oauth2` scheme value written by `_add_security_scheme`. -/
def oauth2SchemeDef : SchemeDef :=
  { type := "oauth2",
    description := some "OAuth 2.0 authentication via Vault OIDC",
    scheme := none,
    bearerFormat := none,
    flows := some [("authorizationCode",
      { authorizationUrl := "/auth/oauth/authorize",
        tokenUrl := "/auth/oauth/token",
        scopes := SCOPE_DESCRIPTIONS })] }

/-- The `apiKey` scheme value written by `_add_security_scheme`. -/
def apiKeySchemeDef : SchemeDef :=
  { type := "http",
    description := some "API key authentication (prefix: libops_)",
    scheme := some "bearer",
    bearerFormat := some "API Key",
    flows := none }

/-- `OpenAPIScopesInjector._add_security_scheme`: ensure `components`
and `components.securitySchemes` exist, then assign the `oauth2` and
`apiKey` entries. -/
def addSecurityScheme (doc : OpenAPIDoc) : OpenAPIDoc :=
  let comps := doc.components.getD { securitySchemes := none }
  let ss0 := comps.securitySchemes.getD []
  let ss1 := dictSet ss0 "oauth2" oauth2SchemeDef
  let ss2 := dictSet ss1 "apiKey" apiKeySchemeDef
  { doc with components := some { securitySchemes := some ss2 } }

/-! ## The Correlator and the per-operation injection -/

/-- The matching loop of `_add_operation_scope` (lines 257-262): the first
fact, in insertion order, whose key with `/` removed contains the
operation id with `_` removed, provided the id is non-empty. -/
def correlate (table : FactTable) (opId : String) : Option ScopeFact :=
  match table with
  | [] => none
  | (k, f) :: rest =>
    if opId != "" && containsSubStr (stripChar '_' opId) (stripChar '/' k) then
      some f
    else
      correlate rest opId

/-- The compact `[Requires: ...]` tag appended to summaries. -/
def requiresTag (scopes : List String) : String :=
  "[Requires: " ++ joinComma scopes ++ "]"

/-- The `scope_info` block built in `_add_operation_scope`: fixed header,
the inline-code scope list, and the resource/scope table. -/
def scopeInfoText (resourceStr : String) (oauthScopes : List String) : String :=
  "\n\n### Authorization\n\n"
    ++ "An API key or OAuth token must have at least one of the following scopes in order to use this API endpoint:\n\n"
    ++ "**API Key Scopes**: `" ++ joinComma oauthScopes ++ "`\n"
    ++ "\n**OAuth Scopes**\n\n"
    ++ "| Resource | Scope |\n"
    ++ "|----------|-------|\n"
    ++ String.join ((hierarchyGet resourceStr).map (fun res =>
        String.join (oauthScopes.map (fun scope =>
          "| " ++ res ++ " | `" ++ scope ++ "` |\n"))))

/-- Line 276-279 of the source: set `operation['security']` to the two
alternative requirements. -/
def securityUpdate (oauthScopes : List String) (op : Operation) : Operation :=
  { op with security := some [("oauth2", oauthScopes), ("apiKey", [])] }

/-- Lines 287-295 of the source: rebuild the summary from the first line
of the (pre-existing) description; when there is no description and no
summary, the summary becomes just the bracketed requirement; when there
is no description but a summary exists, nothing changes. -/
def summaryUpdate (oauthScopes : List String) (op : Operation) : Operation :=
  let baseDesc := match op.description with
    | some d => firstLine d
    | none => ""
  if baseDesc != "" then
    { op with summary := some (baseDesc ++ " " ++ requiresTag oauthScopes) }
  else if op.summary = none then
    { op with summary := some (requiresTag oauthScopes) }
  else op

/-- Lines 325-328 of the source: append `scope_info` to the description,
or install `scope_info.strip()` when there was none. -/
def descriptionUpdate (info : String) (op : Operation) : Operation :=
  match op.description with
  | some d => { op with description := some (d ++ info) }
  | none => { op with description := some (pyStrip info) }

/-- Lines 331-333 of the source: the three `x-` extension fields. -/
def extensionUpdate (oauthScopes : List String) (resourceStr levelStr : String)
    (op : Operation) : Operation :=
  { op with
      xScopes := some oauthScopes,
      xAuthType := some "oauth2 or apiKey",
      xMinAccessLevel := some (resourceStr ++ ":" ++ levelStr) }

/-- Body of `_add_operation_scope` once a fact `(r, l, ps)` has been
matched: resolve the effective scopes (explicit proto scopes if any,
else the mapping table), and if non-empty apply the four mutations in
source order. -/
def injectMatched (r l : String) (ps : List String) (op : Operation) : Operation :=
  let oauthScopes := if ps = [] then scopeMappingGet (r, l) else ps
  if oauthScopes = [] then op
  else
    let resourceStr := pyLower (removeSubStr "RESOURCE_TYPE_" r)
    let levelStr := pyLower (removeSubStr "ACCESS_LEVEL_" l)
    extensionUpdate oauthScopes resourceStr levelStr
      (descriptionUpdate (scopeInfoText resourceStr oauthScopes)
        (summaryUpdate oauthScopes (securityUpdate oauthScopes op)))

/-- `OpenAPIScopesInjector._add_operation_scope`. -/
def addOperationScope (table : FactTable) (op : Operation) : Operation :=
  match correlate table (op.operationId.getD "") with
  | none => op
  | some (r, l, ps) => injectMatched r l ps op

/-- The HTTP verbs handled by `_add_operation_security`. -/
def httpVerbs : List String := ["get", "post", "put", "patch", "delete"]

/-- Per-path-item loop of `_add_operation_security`. -/
def injectPathItem (table : FactTable) (item : List (String × Operation)) :
    List (String × Operation) :=
  item.map (fun e =>
    if httpVerbs.contains e.1 then (e.1, addOperationScope table e.2) else e)

/-- `OpenAPIScopesInjector._add_operation_security`. -/
def addOperationSecurity (table : FactTable) (doc : OpenAPIDoc) : OpenAPIDoc :=
  match doc.paths with
  | none => doc
  | some ps =>
    { doc with paths := some (ps.map (fun e => (e.1, injectPathItem table e.2))) }

/-- One full in-memory injection pass over an already-parsed document
(`inject_scopes` between the read and the write). -/
def injectDoc (table : FactTable) (doc : OpenAPIDoc) : OpenAPIDoc :=
  addOperationSecurity table (addSecurityScheme doc)

/-- `inject_scopes` plus the `__main__` error handling, as a state
transformer on the stored file.  `parse` abstracts `yaml.safe_load`
(returning `none` for a parse error, which raises in the source and
aborts the run) and `dump` abstracts `yaml.dump`.  The result is the
list of file writes performed (in order) and whether the run succeeded;
a failed parse raises before any write, and a successful run performs
exactly one write, of the fully mutated document. -/
def injectScopesRun (parse : String → Option OpenAPIDoc)
    (dump : OpenAPIDoc → String) (table : FactTable) (file : String) :
    List String × Bool :=
  match parse file with
  | none => ([], false)
  | some doc => ([dump (injectDoc table doc)], true)

/-! ## Spec-side comparison definitions

These definitions follow the words of the specification claims (not the
source); they exist only to be compared against the code-derived
definitions above. -/

/-- Modelled from the claim wording for the Correlator: normalize a name
by removing the path/namespace separators `.` and `/` and underscores. -/
def claimNormalize (s : String) : String :=
  String.mk (s.data.filter (fun c => c != '.' && c != '/' && c != '_'))

/-- Modelled from the claim wording for the Correlator (C3): return the
first fact, in insertion order, whose normalized key contains the
normalized operation identifier as a substring. -/
def claimCorrelate (table : FactTable) (opId : String) : Option ScopeFact :=
  match table with
  | [] => none
  | (k, f) :: rest =>
    if containsSubStr (claimNormalize opId) (claimNormalize k) then some f
    else claimCorrelate rest opId

/-- The amended Correlator contract: the identifier is normalized by
removing underscores only, the key by removing slashes only, and an
absent or empty identifier never matches. -/
def amendedCorrelateGo (normId : String) : FactTable → Option ScopeFact
  | [] => none
  | (k, f) :: rest =>
    if containsSubStr normId (stripChar '/' k) then some f
    else amendedCorrelateGo normId rest

/-- The amended Correlator (C3): see `amendedCorrelateGo`. -/
def amendedCorrelate (table : FactTable) (opId : String) : Option ScopeFact :=
  if opId = "" then none
  else amendedCorrelateGo (stripChar '_' opId) table

/-- Modelled from the claim wording for C6: the ancestor chain
account, organization, project, site, truncated at the fact's own
resource type. -/
def claimAncestors (resourceStr : String) : List String :=
  if resourceStr = "account" then ["Account"]
  else if resourceStr = "organization" then ["Account", "Organization"]
  else if resourceStr = "project" then ["Account", "Organization", "Project"]
  else if resourceStr = "site" then ["Account", "Organization", "Project", "Site"]
  else []

/-! ## Concrete example data used by witnesses and counterexamples -/

/-- A one-method fact table with explicit proto scopes. -/
def exTable : FactTable :=
  [("libops.v1.OrgService/ListMembers",
    ("RESOURCE_TYPE_ORGANIZATION", "ACCESS_LEVEL_READ", ["read:members"]))]

/-- A one-method fact table whose fact carries no explicit scopes. -/
def exTableDefault : FactTable :=
  [("libops.v1.OrgService/GetOrg",
    ("RESOURCE_TYPE_ORGANIZATION", "ACCESS_LEVEL_READ", []))]

/-- A one-method fact table for a PROJECT-level method. -/
def exTableProj : FactTable :=
  [("libops.v1.ProjService/GetProj",
    ("RESOURCE_TYPE_PROJECT", "ACCESS_LEVEL_READ", ["read:project"]))]

/-- The table used by the C3 counterexample: its key contains a dot
between two letters of the method path. -/
def exTableDot : FactTable :=
  [("a.b/M", ("RESOURCE_TYPE_SITE", "ACCESS_LEVEL_READ", []))]

/-- A bare operation whose identifier matches `exTable`. -/
def exOp : Operation :=
  { operationId := some "OrgService_ListMembers", summary := none,
    description := none, security := none, xScopes := none,
    xAuthType := none, xMinAccessLevel := none }

/-- An operation that carries a summary but no description. -/
def exOpSummary : Operation :=
  { operationId := some "OrgService_ListMembers", summary := some "S",
    description := none, security := none, xScopes := none,
    xAuthType := none, xMinAccessLevel := none }

/-- A bare operation whose identifier matches `exTableProj`. -/
def exOpProj : Operation :=
  { operationId := some "ProjService_GetProj", summary := none,
    description := none, security := none, xScopes := none,
    xAuthType := none, xMinAccessLevel := none }

/-- An operation with no identifier at all. -/
def exOpNoId : Operation :=
  { operationId := none, summary := some "S", description := some "D",
    security := none, xScopes := none, xAuthType := none,
    xMinAccessLevel := none }

/-- A document holding a single GET operation. -/
def exDoc : OpenAPIDoc :=
  { paths := some [("/org/members", [("get", exOp)])], components := none }

/-! ## The schema annotation extractor

`ProtoScopeExtractor._parse_proto_file` and
`ProtoScopeExtractor._extract_scope_annotation` work by regex search.
Each concrete regex is compiled here to a deterministic maximal-munch
scanner over `List Char`.  This compilation is exact for these patterns:
in every one of them each quantified class (`\s+`, `\w+`, `[\w.]+`,
`[^)]+`, `[^}]+`, `[^"]+`) is followed by a character that the class
cannot match, so the backtracking regex engine and the maximal-munch
scanner accept exactly the same strings with the same captures; the lazy
`(.*?)\n  \}` group is compiled to a first-occurrence search for the
closing `\n  }`.  `re.search` = `findFirst` (try the scanner at each
position, leftmost wins) and `re.finditer` = repeated `findFirst`,
resuming after the end of the previous match (matches never overlap). -/

/-- Literal matcher: consume `lit` or fail. -/
def pLit (lit s : List Char) : Option (List Char) :=
  if lit.isPrefixOf s then some (s.drop lit.length) else none

/-- Scanner for `p+`: the maximal non-empty run of class-`p` characters. -/
def takeWhile1 (p : Char → Bool) (s : List Char) :
    Option (List Char × List Char) :=
  if s.takeWhile p = [] then none else some (s.takeWhile p, s.dropWhile p)

/-- Scanner for `p*`: the maximal (possibly empty) run. -/
def takeWhile0 (p : Char → Bool) (s : List Char) : List Char × List Char :=
  (s.takeWhile p, s.dropWhile p)

/-- Single-character matcher. -/
def pChar (c : Char) (s : List Char) : Option (List Char) :=
  match s with
  | c2 :: rest => if c2 = c then some rest else none
  | [] => none

/-- Leftmost match: try the scanner at every position, left to right;
returns the unmatched prefix and the scanner's output. -/
def findFirst {α : Type} (m : List Char → Option α) :
    List Char → Option (List Char × α)
  | [] => (m []).map fun a => ([], a)
  | c :: cs =>
    match m (c :: cs) with
    | some a => some ([], a)
    | none => (findFirst m cs).map fun pr => (c :: pr.1, pr.2)

/-- First occurrence of `pat`: `some (pre, post)` with
`s = pre ++ pat ++ post` at the leftmost occurrence. -/
def splitFirstSub (pat : List Char) : List Char → Option (List Char × List Char)
  | [] => if pat.isPrefixOf [] then some ([], []) else none
  | c :: cs =>
    if pat.isPrefixOf (c :: cs) then some ([], (c :: cs).drop pat.length)
    else (splitFirstSub pat cs).map fun pr => (c :: pr.1, pr.2)

/-- Scanner for `package\s+([\w.]+)\s*;` (line 107): returns group 1. -/
def matchPackage (s : List Char) : Option (List Char) :=
  match pLit "package".data s with
  | none => none
  | some s1 =>
  match takeWhile1 isPySpace s1 with
  | none => none
  | some (_, s2) =>
  match takeWhile1 isWordDot s2 with
  | none => none
  | some (name, s3) =>
  match pChar ';' (takeWhile0 isPySpace s3).2 with
  | none => none
  | some _ => some name

/-- `package_match.group(1) if package_match else "libops.v1"` (line 108). -/
def extractPackageName (content : List Char) : List Char :=
  match findFirst matchPackage content with
  | some pr => pr.2
  | none => "libops.v1".data

/-- Scanner for `service\s+(\w+)\s*\{` (line 115): returns
(service name, matched span, rest). -/
def matchServiceHeader (s : List Char) :
    Option (List Char × List Char × List Char) :=
  match pLit "service".data s with
  | none => none
  | some s1 =>
  match takeWhile1 isPySpace s1 with
  | none => none
  | some (sp1, s2) =>
  match takeWhile1 isWordChar s2 with
  | none => none
  | some (name, s3) =>
  match pChar '\x7b' (takeWhile0 isPySpace s3).2 with
  | none => none
  | some s5 =>
    some (name,
      "service".data ++ sp1 ++ name ++ (takeWhile0 isPySpace s3).1 ++ ['\x7b'],
      s5)

/-- The `service_starts` slicing loop (lines 115-124): each service's
segment runs from the start of its header to the start of the next
header (or the end of the file).  Fuel keeps the recursion structural;
the wrapper passes enough. -/
def splitServicesGo (fuel : Nat) (name seg rest : List Char) :
    List (List Char × List Char) :=
  match fuel with
  | 0 => [(name, seg ++ rest)]
  | fuel + 1 =>
    match findFirst matchServiceHeader rest with
    | none => [(name, seg ++ rest)]
    | some (pre, name2, consumed2, rest2) =>
      (name, seg ++ pre) :: splitServicesGo fuel name2 consumed2 rest2

/-- All (service name, service segment) pairs of a file, in order. -/
def splitServices (content : List Char) : List (List Char × List Char) :=
  match findFirst matchServiceHeader content with
  | none => []
  | some (_, name, consumed, rest) => splitServicesGo rest.length name consumed rest

/-- Scanner for
`rpc\s+(\w+)\s*\([^)]+\)\s+returns\s+\([^)]+\)\s*\{(.*?)\n  \}`
(line 130, DOTALL): returns (method name, options body, rest after the
closing `\n  }`). -/
def matchRpc (s : List Char) :
    Option (List Char × List Char × List Char) :=
  match pLit "rpc".data s with
  | none => none
  | some s1 =>
  match takeWhile1 isPySpace s1 with
  | none => none
  | some (_, s2) =>
  match takeWhile1 isWordChar s2 with
  | none => none
  | some (name, s3) =>
  match pChar '(' (takeWhile0 isPySpace s3).2 with
  | none => none
  | some s4 =>
  match takeWhile1 (fun c => c != ')') s4 with
  | none => none
  | some (_, s5) =>
  match pChar ')' s5 with
  | none => none
  | some s6 =>
  match takeWhile1 isPySpace s6 with
  | none => none
  | some (_, s7) =>
  match pLit "returns".data s7 with
  | none => none
  | some s8 =>
  match takeWhile1 isPySpace s8 with
  | none => none
  | some (_, s9) =>
  match pChar '(' s9 with
  | none => none
  | some s10 =>
  match takeWhile1 (fun c => c != ')') s10 with
  | none => none
  | some (_, s11) =>
  match pChar ')' s11 with
  | none => none
  | some s12 =>
  match pChar '\x7b' (takeWhile0 isPySpace s12).2 with
  | none => none
  | some s13 =>
  match splitFirstSub "\n  \x7d".data s13 with
  | none => none
  | some (body, rest) => some (name, body, rest)

/-- The `re.finditer` loop over rpc declarations inside one service
segment (lines 129-137). -/
def findRpcsGo (fuel : Nat) (s : List Char) : List (List Char × List Char) :=
  match fuel with
  | 0 => []
  | fuel + 1 =>
    match findFirst matchRpc s with
    | none => []
    | some (_, name, body, rest) => (name, body) :: findRpcsGo fuel rest

/-- All (method name, options body) pairs of a service segment. -/
def findRpcs (s : List Char) : List (List Char × List Char) :=
  findRpcsGo s.length s

/-- Scanner for
`option\s+\(libops\.v1\.options\.required_scope\)\s*=\s*\{([^}]+)\}`
(line 155): returns the block content (group 1). -/
def matchScopeOption (s : List Char) : Option (List Char) :=
  match pLit "option".data s with
  | none => none
  | some s1 =>
  match takeWhile1 isPySpace s1 with
  | none => none
  | some (_, s2) =>
  match pLit "(libops.v1.options.required_scope)".data s2 with
  | none => none
  | some s3 =>
  match pChar '=' (takeWhile0 isPySpace s3).2 with
  | none => none
  | some s4 =>
  match pChar '\x7b' (takeWhile0 isPySpace s4).2 with
  | none => none
  | some s6 =>
  match takeWhile1 (fun c => c != '\x7d') s6 with
  | none => none
  | some (content, s7) =>
  match pChar '\x7d' s7 with
  | none => none
  | some _ => some content

/-- Scanner for `resource:\s*(RESOURCE_TYPE_\w+)` (line 164). -/
def matchResource (s : List Char) : Option (List Char) :=
  match pLit "resource:".data s with
  | none => none
  | some s1 =>
  match pLit "RESOURCE_TYPE_".data (takeWhile0 isPySpace s1).2 with
  | none => none
  | some s3 =>
  match takeWhile1 isWordChar s3 with
  | none => none
  | some (suffix2, _) => some ("RESOURCE_TYPE_".data ++ suffix2)

/-- Scanner for `level:\s*(ACCESS_LEVEL_\w+)` (line 170). -/
def matchLevel (s : List Char) : Option (List Char) :=
  match pLit "level:".data s with
  | none => none
  | some s1 =>
  match pLit "ACCESS_LEVEL_".data (takeWhile0 isPySpace s1).2 with
  | none => none
  | some s3 =>
  match takeWhile1 isWordChar s3 with
  | none => none
  | some (suffix2, _) => some ("ACCESS_LEVEL_".data ++ suffix2)

/-- Scanner for `oauth_scopes:\s*"([^"]+)"` (line 177): returns
(scope string, rest after the closing quote). -/
def matchOauth (s : List Char) : Option (List Char × List Char) :=
  match pLit "oauth_scopes:".data s with
  | none => none
  | some s1 =>
  match pChar '"' (takeWhile0 isPySpace s1).2 with
  | none => none
  | some s3 =>
  match takeWhile1 (fun c => c != '"') s3 with
  | none => none
  | some (scope, s4) =>
  match pChar '"' s4 with
  | none => none
  | some s5 => some (scope, s5)

/-- The `re.finditer` loop over `oauth_scopes:` entries (line 177). -/
def findOauthGo (fuel : Nat) (s : List Char) : List (List Char) :=
  match fuel with
  | 0 => []
  | fuel + 1 =>
    match findFirst matchOauth s with
    | none => []
    | some (_, scope, rest) => scope :: findOauthGo fuel rest

/-- All oauth scope strings of a scope block, in order. -/
def findOauthScopes (s : List Char) : List (List Char) :=
  findOauthGo s.length s

/-- `ProtoScopeExtractor._extract_scope_annotation`. -/
def extractScopeAnnotation (methodOptions : List Char) : Option ScopeFact :=
  match findFirst matchScopeOption methodOptions with
  | none => none
  | some prOpt =>
    match findFirst matchResource prOpt.2 with
    | none => none
    | some prR =>
      match findFirst matchLevel prOpt.2 with
      | none => none
      | some prL =>
        some (String.mk prR.2, String.mk prL.2,
          (findOauthScopes prOpt.2).map String.mk)

/-- One step of the per-method loop of `_parse_proto_file`:
`self.method_scopes[full_method_name] = scope_annotation` when the rpc
body carries an annotation. -/
def innerF (pkg svn : List Char) (table : FactTable)
    (rpc : List Char × List Char) : FactTable :=
  match extractScopeAnnotation rpc.2 with
  | none => table
  | some scope =>
    dictSet table (String.mk (pkg ++ ".".data ++ svn ++ "/".data ++ rpc.1))
      scope

/-- One step of the per-service loop of `_parse_proto_file`. -/
def outerF (pkg : List Char) (table : FactTable)
    (seg : List Char × List Char) : FactTable :=
  (findRpcs seg.2).foldl (innerF pkg seg.1) table

/-- `ProtoScopeExtractor._parse_proto_file` for one file: the fact-table
entries this file contributes, with `self.method_scopes[k] = v`
modelled by `dictSet`. -/
def parseProtoFile (content : String) : FactTable :=
  let packageName := extractPackageName content.data
  (splitServices content.data).foldl (fun table seg =>
    (findRpcs seg.2).foldl (fun table rpc =>
      match extractScopeAnnotation rpc.2 with
      | none => table
      | some scope =>
        dictSet table
          (String.mk (packageName ++ ".".data ++ seg.1 ++ "/".data ++ rpc.1))
          scope)
      table)
    []

/-! ## A structured model of proto files and its canonical rendering

The C1 theorem quantifies over structured schema files rendered in the
repository's proto style (two-space indented rpc blocks, four-space
indented option blocks). -/

/-- The `required_scope` option block of one method. -/
structure MethodAnn where
  resource : List Char
  level : List Char
  oauthScopes : List (List Char)
deriving DecidableEq, Repr

/-- One rpc declaration. -/
structure RpcDecl where
  name : List Char
  reqType : List Char
  resType : List Char
  ann : Option MethodAnn
deriving DecidableEq, Repr

/-- One service block. -/
structure ServiceDecl where
  name : List Char
  rpcs : List RpcDecl
deriving DecidableEq, Repr

/-- One schema source file. -/
structure ProtoFile where
  pkg : Option (List Char)
  services : List ServiceDecl
deriving DecidableEq, Repr

/-- Rendering of one `oauth_scopes:` line. -/
def renderScopeLine (s : List Char) : List Char :=
  "\n      oauth_scopes: \"".data ++ s ++ "\"".data

/-- The interior of the option literal (everything between its braces). -/
def annInner (a : MethodAnn) : List Char :=
  "\n      resource: ".data ++ a.resource
    ++ "\n      level: ".data ++ a.level
    ++ (a.oauthScopes.map renderScopeLine).flatten
    ++ "\n    ".data

/-- Rendering of the option block inside an rpc body. -/
def renderAnn (a : MethodAnn) : List Char :=
  "\n    option (libops.v1.options.required_scope) = \x7b".data
    ++ annInner a ++ "\x7d;".data

/-- Rendering of one rpc declaration (two-space indent, closing braces
as in the repository's proto files). -/
def renderRpc (m : RpcDecl) : List Char :=
  "  rpc ".data ++ m.name ++ " (".data ++ m.reqType ++ ") returns (".data
    ++ m.resType ++ ") \x7b".data
    ++ (match m.ann with
        | some a => renderAnn a
        | none => [])
    ++ "\n  \x7d\n".data

/-- The option-block text inside one rendered rpc body (empty for an
unannotated method). -/
def rpcBody (m : RpcDecl) : List Char :=
  match m.ann with
  | some a => renderAnn a
  | none => []

/-- Rendering of one service block. -/
def renderService (sv : ServiceDecl) : List Char :=
  "service ".data ++ sv.name ++ " \x7b\n".data
    ++ (sv.rpcs.map renderRpc).flatten ++ "\x7d\n\n".data

/-- Rendering of a whole file. -/
def renderProtoFile (f : ProtoFile) : List Char :=
  (match f.pkg with
   | some p => "package ".data ++ p ++ ";\n\n".data
   | none => [])
    ++ (f.services.map renderService).flatten

/-- The literals that identifier-like tokens may not contain (the
extractor's searches key on them; an identifier containing one would
make the code's position-free regexes fire inside it). -/
def badLits : List (List Char) := ["service".data, "rpc".data, "package".data]

/-- A clean identifier token: non-empty, word characters only, not
containing any search literal. -/
def cleanWordTokB (s : List Char) : Bool :=
  decide (s ≠ []) && s.all isWordChar &&
    badLits.all (fun lit => !containsSub lit s)

/-- Characters allowed in an oauth scope string. -/
def scopeChar (c : Char) : Bool :=
  c.isAlphanum || c == ':' || c == '_' || c == '-' || c == '.'

/-- A clean scope string: non-empty, scope characters only, not
containing any search literal. -/
def cleanScopeTokB (s : List Char) : Bool :=
  decide (s ≠ []) && s.all scopeChar &&
    badLits.all (fun lit => !containsSub lit s)

/-- A clean package name: non-empty, word or dot characters, not
containing any search literal. -/
def cleanPkgB (s : List Char) : Bool :=
  decide (s ≠ []) && s.all isWordDot &&
    badLits.all (fun lit => !containsSub lit s)

/-- Well-formedness of an option block: enum-shaped resource and level
values and clean scope strings. -/
def annOK (a : MethodAnn) : Bool :=
  "RESOURCE_TYPE_".data.isPrefixOf a.resource &&
    cleanWordTokB (a.resource.drop 14) &&
  "ACCESS_LEVEL_".data.isPrefixOf a.level &&
    cleanWordTokB (a.level.drop 13) &&
  a.oauthScopes.all cleanScopeTokB

/-- Well-formedness of an rpc declaration. -/
def rpcOK (m : RpcDecl) : Bool :=
  cleanWordTokB m.name && cleanWordTokB m.reqType && cleanWordTokB m.resType &&
    (match m.ann with
     | some a => annOK a
     | none => true)

/-- Well-formedness of a service block. -/
def serviceOK (sv : ServiceDecl) : Bool :=
  cleanWordTokB sv.name && sv.rpcs.all rpcOK

/-- The package name the extractor uses for a file. -/
def pkgNameOf (f : ProtoFile) : List Char :=
  match f.pkg with
  | some p => p
  | none => "libops.v1".data

/-- The fully qualified method key `package.Service/Method`. -/
def mkKey (pkg svc m : List Char) : String :=
  String.mk (pkg ++ ".".data ++ svc ++ "/".data ++ m)

/-- The facts one service's method list should contribute: one entry per
annotated method, in declaration order, carrying the literal resource,
level and scope values of its option block. -/
def factsOf (pkg svn : List Char) (ms : List RpcDecl) : FactTable :=
  ms.filterMap (fun m =>
    m.ann.map (fun a =>
      (mkKey pkg svn m.name,
       (String.mk a.resource, String.mk a.level,
        a.oauthScopes.map String.mk))))

/-- The fact table a structured file should extract to, service by
service. -/
def expectedFacts (f : ProtoFile) : FactTable :=
  (f.services.map (fun sv => factsOf (pkgNameOf f) sv.name sv.rpcs)).flatten

/-- Well-formedness of a whole file: clean package (when present), clean
services, and pairwise distinct method keys. -/
def wfProtoFile (f : ProtoFile) : Bool :=
  (match f.pkg with
   | some p => cleanPkgB p
   | none => true) &&
  f.services.all serviceOK &&
  decide (((expectedFacts f).map (fun e => e.1)).Nodup)

/-- A concrete example file used by the C1 witness. -/
def exProtoFile : ProtoFile :=
  { pkg := some "libops.v1".data,
    services :=
      [{ name := "OrgService".data,
         rpcs :=
           [{ name := "ListMembers".data,
              reqType := "ListMembersRequest".data,
              resType := "ListMembersResponse".data,
              ann := some
                { resource := "RESOURCE_TYPE_ORGANIZATION".data,
                  level := "ACCESS_LEVEL_READ".data,
                  oauthScopes := ["read:members".data] } },
            { name := "GetOrg".data,
              reqType := "GetOrgRequest".data,
              resType := "GetOrgResponse".data,
              ann := some
                { resource := "RESOURCE_TYPE_ORGANIZATION".data,
                  level := "ACCESS_LEVEL_READ".data,
                  oauthScopes := [] } },
            { name := "Ping".data,
              reqType := "PingRequest".data,
              resType := "PingResponse".data,
              ann := none }] },
       { name := "SiteService".data,
         rpcs :=
           [{ name := "DeleteSite".data,
              reqType := "DeleteSiteRequest".data,
              resType := "DeleteSiteResponse".data,
              ann := some
                { resource := "RESOURCE_TYPE_SITE".data,
                  level := "ACCESS_LEVEL_ADMIN".data,
                  oauthScopes := [] } }] }] }

/-! ## Helper lemmas -/

theorem containsSub_nil_pat (s : List Char) : containsSub [] s = true := by
  cases s <;> simp [containsSub, List.isPrefixOf]

theorem containsSubStr_empty_pat (s : String) : containsSubStr "" s = true := by
  simpa [containsSubStr] using containsSub_nil_pat s.data

theorem correlate_empty_id (table : FactTable) : correlate table "" = none := by
  induction table with
  | nil => rfl
  | cons e rest ih =>
    obtain ⟨k, f⟩ := e
    simp [correlate, ih]

theorem addOp_unmatched (table : FactTable) (op : Operation)
    (h : correlate table (op.operationId.getD "") = none) :
    addOperationScope table op = op := by
  simp [addOperationScope, h]

theorem addOp_matched (table : FactTable) (op : Operation) (r l : String)
    (ps : List String)
    (h : correlate table (op.operationId.getD "") = some (r, l, ps)) :
    addOperationScope table op = injectMatched r l ps op := by
  simp [addOperationScope, h]

@[simp] theorem securityUpdate_opId (s : List String) (q : Operation) :
    (securityUpdate s q).operationId = q.operationId := rfl

@[simp] theorem securityUpdate_summary (s : List String) (q : Operation) :
    (securityUpdate s q).summary = q.summary := rfl

@[simp] theorem securityUpdate_description (s : List String) (q : Operation) :
    (securityUpdate s q).description = q.description := rfl

@[simp] theorem securityUpdate_security (s : List String) (q : Operation) :
    (securityUpdate s q).security = some [("oauth2", s), ("apiKey", [])] := rfl

@[simp] theorem summaryUpdate_opId (s : List String) (q : Operation) :
    (summaryUpdate s q).operationId = q.operationId := by
  simp only [summaryUpdate]
  split
  · rfl
  · split <;> rfl

@[simp] theorem summaryUpdate_description (s : List String) (q : Operation) :
    (summaryUpdate s q).description = q.description := by
  simp only [summaryUpdate]
  split
  · rfl
  · split <;> rfl

@[simp] theorem summaryUpdate_security (s : List String) (q : Operation) :
    (summaryUpdate s q).security = q.security := by
  simp only [summaryUpdate]
  split
  · rfl
  · split <;> rfl

theorem summaryUpdate_summary (s : List String) (q : Operation) :
    (summaryUpdate s q).summary =
      (if firstLine (q.description.getD "") != "" then
        some (firstLine (q.description.getD "") ++ " " ++ requiresTag s)
      else if q.summary = none then some (requiresTag s)
      else q.summary) := by
  have hb : (match q.description with
      | some d => firstLine d
      | none => "") = firstLine (q.description.getD "") := by
    cases q.description <;> simp [firstLine]
  simp only [summaryUpdate, hb]
  split
  · rfl
  · split <;> rfl

@[simp] theorem descriptionUpdate_opId (i : String) (q : Operation) :
    (descriptionUpdate i q).operationId = q.operationId := by
  unfold descriptionUpdate
  split <;> rfl

@[simp] theorem descriptionUpdate_summary (i : String) (q : Operation) :
    (descriptionUpdate i q).summary = q.summary := by
  unfold descriptionUpdate
  split <;> rfl

@[simp] theorem descriptionUpdate_security (i : String) (q : Operation) :
    (descriptionUpdate i q).security = q.security := by
  unfold descriptionUpdate
  split <;> rfl

theorem descriptionUpdate_description (i : String) (q : Operation) :
    (descriptionUpdate i q).description =
      some (match q.description with
        | some d => d ++ i
        | none => pyStrip i) := by
  unfold descriptionUpdate
  cases q.description <;> rfl

@[simp] theorem extensionUpdate_opId (s : List String) (rs ls : String)
    (q : Operation) : (extensionUpdate s rs ls q).operationId = q.operationId := rfl

@[simp] theorem extensionUpdate_summary (s : List String) (rs ls : String)
    (q : Operation) : (extensionUpdate s rs ls q).summary = q.summary := rfl

@[simp] theorem extensionUpdate_description (s : List String) (rs ls : String)
    (q : Operation) : (extensionUpdate s rs ls q).description = q.description := rfl

@[simp] theorem extensionUpdate_security (s : List String) (rs ls : String)
    (q : Operation) : (extensionUpdate s rs ls q).security = q.security := rfl

/-- The effective scope list resolved by `injectMatched`. -/
def effectiveScopes (r l : String) (ps : List String) : List String :=
  if ps = [] then scopeMappingGet (r, l) else ps

theorem injectMatched_of_empty (r l : String) (ps : List String) (op : Operation)
    (h : effectiveScopes r l ps = []) : injectMatched r l ps op = op := by
  simp only [injectMatched]
  rw [if_pos (by simpa [effectiveScopes] using h)]

theorem injectMatched_eq (r l : String) (ps : List String) (op : Operation)
    (h : effectiveScopes r l ps ≠ []) :
    injectMatched r l ps op =
      extensionUpdate (effectiveScopes r l ps)
        (pyLower (removeSubStr "RESOURCE_TYPE_" r))
        (pyLower (removeSubStr "ACCESS_LEVEL_" l))
        (descriptionUpdate
          (scopeInfoText (pyLower (removeSubStr "RESOURCE_TYPE_" r))
            (effectiveScopes r l ps))
          (summaryUpdate (effectiveScopes r l ps)
            (securityUpdate (effectiveScopes r l ps) op))) := by
  simp only [injectMatched, effectiveScopes] at h ⊢
  rw [if_neg h]

theorem injectMatched_security (r l : String) (ps : List String) (op : Operation)
    (h : effectiveScopes r l ps ≠ []) :
    (injectMatched r l ps op).security =
      some [("oauth2", effectiveScopes r l ps), ("apiKey", [])] := by
  rw [injectMatched_eq r l ps op h]
  simp

theorem injectMatched_opId (r l : String) (ps : List String) (op : Operation) :
    (injectMatched r l ps op).operationId = op.operationId := by
  by_cases h : effectiveScopes r l ps = []
  · rw [injectMatched_of_empty r l ps op h]
  · rw [injectMatched_eq r l ps op h]
    simp

/-! ## Claim C2: effective scope resolution -/

/-- C2: for a matched operation the injected scope list is the fact's
explicit list when non-empty, else the `SCOPE_MAPPING` entry for the
fact's (resource, level) pair (for example exactly `["read:organization"]`
for (RESOURCE_TYPE_ORGANIZATION, ACCESS_LEVEL_READ)); when both are
empty, the operation is left completely unchanged. -/
theorem c2_effective_scopes (table : FactTable) (op : Operation)
    (r l : String) (ps : List String)
    (h : correlate table (op.operationId.getD "") = some (r, l, ps)) :
    (ps ≠ [] →
      (addOperationScope table op).security = some [("oauth2", ps), ("apiKey", [])]) ∧
    (ps = [] → scopeMappingGet (r, l) ≠ [] →
      (addOperationScope table op).security =
        some [("oauth2", scopeMappingGet (r, l)), ("apiKey", [])]) ∧
    (ps = [] → scopeMappingGet (r, l) = [] → addOperationScope table op = op) ∧
    scopeMappingGet ("RESOURCE_TYPE_ORGANIZATION", "ACCESS_LEVEL_READ") =
      ["read:organization"] := by
  rw [addOp_matched table op r l ps h]
  refine ⟨?_, ?_, ?_, by decide⟩
  · intro hps
    have he : effectiveScopes r l ps = ps := by simp [effectiveScopes, hps]
    rw [injectMatched_security r l ps op (by simp [he, hps]), he]
  · intro hps hm
    have he : effectiveScopes r l ps = scopeMappingGet (r, l) := by
      simp [effectiveScopes, hps]
    rw [injectMatched_security r l ps op (by simp [he, hm]), he]
  · intro hps hm
    exact injectMatched_of_empty r l ps op (by simp [effectiveScopes, hps, hm])

/-- C2 witness: concrete instances for both the explicit-scope case and
the fallback case. -/
theorem c2_effective_scopes_witness :
    correlate exTable (exOp.operationId.getD "") =
      some ("RESOURCE_TYPE_ORGANIZATION", "ACCESS_LEVEL_READ", ["read:members"]) ∧
    (addOperationScope exTable exOp).security =
      some [("oauth2", ["read:members"]), ("apiKey", [])] := by
  refine ⟨by decide, ?_⟩
  exact (c2_effective_scopes exTable exOp "RESOURCE_TYPE_ORGANIZATION"
    "ACCESS_LEVEL_READ" ["read:members"] (by decide)).1 (by decide)

/-! ## Claim C3: the Correlator's normalization (corrected) -/

/-- C3 counterexample: for the key `a.b/M` and identifier `ab`, the
claimed normalization (remove separators and underscores from both
sides) finds a match, but the code (which keeps dots in the key) does
not. -/
theorem c3_normalization_counterexample :
    correlate exTableDot "ab" = none ∧
    claimCorrelate exTableDot "ab" =
      some ("RESOURCE_TYPE_SITE", "ACCESS_LEVEL_READ", []) := by
  constructor <;> decide

/-- C3 amended: the Correlator removes underscores from the identifier
only and slashes from the key only (dots in the key are kept), matches
by substring with first-match-wins in insertion order, and an absent or
empty identifier never matches. -/
theorem c3_correlator_amended (table : FactTable) (opId : String) :
    correlate table opId = amendedCorrelate table opId := by
  by_cases h : opId = ""
  · subst h
    simp [amendedCorrelate, correlate_empty_id]
  · unfold amendedCorrelate
    rw [if_neg h]
    induction table with
    | nil => rfl
    | cons e rest ih =>
      obtain ⟨k, f⟩ := e
      have hne : (opId != "") = true := by simpa [bne_iff_ne] using h
      simp only [correlate, amendedCorrelateGo, hne, Bool.true_and, ih]

/-! ## Claim C7: resolved operations end with a scope-bearing security list -/

/-- C7: every operation the Correlator resolves to a fact whose resource
type and access level are among the modelled enum values ends with the
two-alternative security list whose OAuth2 entry carries a non-empty
scope list. -/
theorem c7_security_invariant (table : FactTable) (op : Operation)
    (r l : String) (ps : List String)
    (h : correlate table (op.operationId.getD "") = some (r, l, ps))
    (hr : r ∈ ["RESOURCE_TYPE_ACCOUNT", "RESOURCE_TYPE_ORGANIZATION",
      "RESOURCE_TYPE_PROJECT", "RESOURCE_TYPE_SITE"])
    (hl : l ∈ ["ACCESS_LEVEL_READ", "ACCESS_LEVEL_WRITE", "ACCESS_LEVEL_ADMIN"]) :
    ∃ scopes : List String, scopes ≠ [] ∧
      (addOperationScope table op).security =
        some [("oauth2", scopes), ("apiKey", [])] := by
  rw [addOp_matched table op r l ps h]
  refine ⟨effectiveScopes r l ps, ?_, ?_⟩
  · by_cases hps : ps = []
    · subst hps
      simp only [effectiveScopes, if_pos rfl]
      fin_cases hr <;> fin_cases hl <;> decide
    · simp [effectiveScopes, hps]
  · apply injectMatched_security
    by_cases hps : ps = []
    · subst hps
      simp only [effectiveScopes, if_pos rfl]
      fin_cases hr <;> fin_cases hl <;> decide
    · simp [effectiveScopes, hps]

/-- C7 witness: the fallback fact of `exTableDefault` resolves and yields
the non-empty default organization read scope. -/
theorem c7_security_invariant_witness :
    correlate exTableDefault "OrgService_GetOrg" =
      some ("RESOURCE_TYPE_ORGANIZATION", "ACCESS_LEVEL_READ", []) ∧
    ∃ scopes : List String, scopes ≠ [] ∧
      (addOperationScope exTableDefault
        { operationId := some "OrgService_GetOrg", summary := none,
          description := none, security := none, xScopes := none,
          xAuthType := none, xMinAccessLevel := none }).security =
        some [("oauth2", scopes), ("apiKey", [])] := by
  refine ⟨by decide, ?_⟩
  exact c7_security_invariant exTableDefault _ "RESOURCE_TYPE_ORGANIZATION"
    "ACCESS_LEVEL_READ" [] (by decide) (by decide) (by decide)

/-! ## Claim C8: unmatched operations are untouched -/

/-- C8: an operation for which the Correlator finds no fact is returned
unchanged by `_add_operation_scope`: no field is added, removed or
modified. -/
theorem c8_unmatched_unchanged (table : FactTable) (op : Operation)
    (h : correlate table (op.operationId.getD "") = none) :
    addOperationScope table op = op :=
  addOp_unmatched table op h

/-- C8 witness: an operation whose identifier matches nothing in the
table is returned unchanged. -/
theorem c8_unmatched_unchanged_witness :
    correlate exTable (some "Other_Thing" |>.getD "") = none ∧
    addOperationScope exTable
      { operationId := some "Other_Thing", summary := some "S",
        description := some "D", security := none, xScopes := none,
        xAuthType := none, xMinAccessLevel := none } =
      { operationId := some "Other_Thing", summary := some "S",
        description := some "D", security := none, xScopes := none,
        xAuthType := none, xMinAccessLevel := none } := by
  refine ⟨by decide, ?_⟩
  exact c8_unmatched_unchanged exTable _ (by decide)

/-! ## Claim C9: abort-before-write semantics -/

/-- C9: when the document does not parse, the run fails having performed
no write at all; when it parses, the run performs exactly one write,
of the document obtained by completing the whole in-memory mutation
(scheme registration plus per-operation injection). -/
theorem c9_abort_semantics (parse : String → Option OpenAPIDoc)
    (dump : OpenAPIDoc → String) (table : FactTable) (file : String) :
    (parse file = none → injectScopesRun parse dump table file = ([], false)) ∧
    (∀ doc : OpenAPIDoc, parse file = some doc →
      injectScopesRun parse dump table file = ([dump (injectDoc table doc)], true)) := by
  constructor
  · intro h
    simp [injectScopesRun, h]
  · intro doc h
    simp [injectScopesRun, h]

/-- C9 witness: a parse failure writes nothing and reports failure; a
successful parse writes the fully injected document. -/
theorem c9_abort_semantics_witness :
    injectScopesRun (fun _ => none) (fun _ => "out") [] "doc" = ([], false) ∧
    injectScopesRun (fun _ => some exDoc) (fun _ => "out") exTable "doc" =
      ([(fun (_ : OpenAPIDoc) => "out") (injectDoc exTable exDoc)], true) := by
  constructor
  · exact (c9_abort_semantics (fun _ => none) (fun _ => "out") [] "doc").1 rfl
  · exact (c9_abort_semantics (fun _ => some exDoc) (fun _ => "out") exTable
      "doc").2 exDoc rfl

/-! ## Claim C10: absent or empty operation identifiers never match -/

/-- C10: an operation with no identifier, or with the empty string as
identifier, is left completely unchanged, even though the empty string
is a substring of every fact key. -/
theorem c10_empty_id_unchanged (table : FactTable) (op : Operation)
    (h : op.operationId = none ∨ op.operationId = some "") :
    addOperationScope table op = op ∧
    ∀ k : String, containsSubStr "" k = true := by
  have hid : op.operationId.getD "" = "" := by
    rcases h with h | h <;> simp [h]
  refine ⟨addOp_unmatched table op ?_, fun k => containsSubStr_empty_pat k⟩
  rw [hid]
  exact correlate_empty_id table


set_option maxRecDepth 10000

/-! ## Claims C4, C5, C6: further helper lemmas -/

@[simp] theorem extensionUpdate_xScopes (s : List String) (rs ls : String)
    (q : Operation) : (extensionUpdate s rs ls q).xScopes = some s := rfl

@[simp] theorem extensionUpdate_xAuthType (s : List String) (rs ls : String)
    (q : Operation) : (extensionUpdate s rs ls q).xAuthType = some "oauth2 or apiKey" := rfl

@[simp] theorem extensionUpdate_xMin (s : List String) (rs ls : String)
    (q : Operation) : (extensionUpdate s rs ls q).xMinAccessLevel = some (rs ++ ":" ++ ls) := rfl

theorem injectMatched_xScopes (r l : String) (ps : List String) (op : Operation)
    (h : effectiveScopes r l ps ≠ []) :
    (injectMatched r l ps op).xScopes = some (effectiveScopes r l ps) := by
  rw [injectMatched_eq r l ps op h]
  simp

theorem injectMatched_xAuthType (r l : String) (ps : List String) (op : Operation)
    (h : effectiveScopes r l ps ≠ []) :
    (injectMatched r l ps op).xAuthType = some "oauth2 or apiKey" := by
  rw [injectMatched_eq r l ps op h]
  simp

theorem injectMatched_xMin (r l : String) (ps : List String) (op : Operation)
    (h : effectiveScopes r l ps ≠ []) :
    (injectMatched r l ps op).xMinAccessLevel =
      some (pyLower (removeSubStr "RESOURCE_TYPE_" r) ++ ":" ++
        pyLower (removeSubStr "ACCESS_LEVEL_" l)) := by
  rw [injectMatched_eq r l ps op h]
  simp

theorem addOp_opId (table : FactTable) (op : Operation) :
    (addOperationScope table op).operationId = op.operationId := by
  cases h : correlate table (op.operationId.getD "") with
  | none => rw [addOp_unmatched table op h]
  | some f =>
    obtain ⟨r, l, ps⟩ := f
    rw [addOp_matched table op r l ps h]
    exact injectMatched_opId r l ps op

theorem dictSet_dictSet_same {α : Type} (d : List (String × α)) (k : String)
    (v' v : α) : dictSet (dictSet d k v') k v = dictSet d k v := by
  induction d with
  | nil => simp [dictSet]
  | cons e rest ih =>
    obtain ⟨k', w⟩ := e
    by_cases hk : k' = k
    · subst hk
      simp [dictSet]
    · simp [dictSet, hk, ih]

theorem dictSet_lookup_self {α : Type} (d : List (String × α)) (k : String)
    (v : α) : (dictSet d k v).lookup k = some v := by
  induction d with
  | nil => simp [dictSet, List.lookup]
  | cons e rest ih =>
    obtain ⟨k', w⟩ := e
    by_cases hk : k' = k
    · subst hk
      simp [dictSet, List.lookup]
    · have hb : (k == k') = false :=
        beq_eq_false_iff_ne.mpr (fun hh => hk hh.symm)
      simp [dictSet, hk, List.lookup, hb, ih]

theorem dictSet_lookup_other {α : Type} (d : List (String × α)) (k k' : String)
    (v : α) (h : k ≠ k') : (dictSet d k' v).lookup k = d.lookup k := by
  have hb : (k == k') = false := beq_eq_false_iff_ne.mpr h
  induction d with
  | nil => simp [dictSet, List.lookup, hb]
  | cons e rest ih =>
    obtain ⟨k'', w⟩ := e
    by_cases hk : k'' = k'
    · subst hk
      simp [dictSet, List.lookup, hb]
    · by_cases hk2 : k = k''
      · subst hk2
        simp [dictSet, List.lookup, hk]
      · have hb2 : (k == k'') = false := beq_eq_false_iff_ne.mpr hk2
        simp [dictSet, List.lookup, hk, hb2, ih]

theorem dictSet_of_lookup_eq {α : Type} (d : List (String × α)) (k : String)
    (v : α) (h : d.lookup k = some v) : dictSet d k v = d := by
  induction d with
  | nil => simp [List.lookup] at h
  | cons e rest ih =>
    obtain ⟨k', w⟩ := e
    by_cases hk : k' = k
    · subst hk
      simp [List.lookup] at h
      simp [dictSet, h]
    · have hb : (k == k') = false :=
        beq_eq_false_iff_ne.mpr (fun hh => hk hh.symm)
      simp only [List.lookup, hb] at h
      simp [dictSet, hk, ih h]

theorem addSecurityScheme_idem (doc : OpenAPIDoc) :
    addSecurityScheme (addSecurityScheme doc) = addSecurityScheme doc := by
  have hS : ∀ ss0 : List (String × SchemeDef),
      dictSet (dictSet (dictSet (dictSet ss0 "oauth2" oauth2SchemeDef)
          "apiKey" apiKeySchemeDef) "oauth2" oauth2SchemeDef)
        "apiKey" apiKeySchemeDef =
      dictSet (dictSet ss0 "oauth2" oauth2SchemeDef) "apiKey" apiKeySchemeDef := by
    intro ss0
    have h1 : (dictSet (dictSet ss0 "oauth2" oauth2SchemeDef) "apiKey"
        apiKeySchemeDef).lookup "oauth2" = some oauth2SchemeDef := by
      rw [dictSet_lookup_other _ _ _ _ (by decide), dictSet_lookup_self]
    rw [dictSet_of_lookup_eq _ _ _ h1,
      dictSet_of_lookup_eq _ _ _ (dictSet_lookup_self _ _ _)]
  simp only [addSecurityScheme, Option.getD_some]
  rw [hS]

/-! ## Claim C4: re-running the injector (corrected) -/

/-- C4 counterexample: running the full in-memory injection twice on a
concrete document is not the same as running it once (the second run
rebuilds the summary from the injected description's first line and
appends a second Authorization section). -/
theorem c4_idempotence_counterexample :
    injectDoc exTable (injectDoc exTable exDoc) ≠ injectDoc exTable exDoc := by
  decide

/-- C4 amended: a second run reproduces the security-scheme section
exactly and overwrites `security`, `x-scopes`, `x-auth-type` and
`x-min-access-level` with identical values, but matched operations'
summaries and descriptions are not preserved: each run appends the
authorization block to the description again. -/
theorem c4_rerun_amended :
    (∀ doc : OpenAPIDoc, addSecurityScheme (addSecurityScheme doc) = addSecurityScheme doc) ∧
    (∀ (table : FactTable) (op : Operation) (r l : String) (ps : List String),
      correlate table (op.operationId.getD "") = some (r, l, ps) →
      effectiveScopes r l ps ≠ [] →
      (addOperationScope table (addOperationScope table op)).security =
          (addOperationScope table op).security ∧
        (addOperationScope table (addOperationScope table op)).xScopes =
          (addOperationScope table op).xScopes ∧
        (addOperationScope table (addOperationScope table op)).xAuthType =
          (addOperationScope table op).xAuthType ∧
        (addOperationScope table (addOperationScope table op)).xMinAccessLevel =
          (addOperationScope table op).xMinAccessLevel) ∧
    (∀ (table : FactTable) (op : Operation) (r l : String) (ps : List String)
      (d : String),
      correlate table (op.operationId.getD "") = some (r, l, ps) →
      effectiveScopes r l ps ≠ [] → op.description = some d →
      (addOperationScope table op).description =
        some (d ++ scopeInfoText (pyLower (removeSubStr "RESOURCE_TYPE_" r))
          (effectiveScopes r l ps))) := by
  refine ⟨addSecurityScheme_idem, ?_, ?_⟩
  · intro table op r l ps h hne
    have h2 : correlate table ((addOperationScope table op).operationId.getD "") =
        some (r, l, ps) := by
      rw [addOp_opId table op]
      exact h
    rw [addOp_matched table (addOperationScope table op) r l ps h2,
      addOp_matched table op r l ps h]
    exact ⟨by rw [injectMatched_security r l ps _ hne,
        injectMatched_security r l ps _ hne],
      by rw [injectMatched_xScopes r l ps _ hne, injectMatched_xScopes r l ps _ hne],
      by rw [injectMatched_xAuthType r l ps _ hne,
        injectMatched_xAuthType r l ps _ hne],
      by rw [injectMatched_xMin r l ps _ hne, injectMatched_xMin r l ps _ hne]⟩
  · intro table op r l ps d h hne hd
    rw [addOp_matched table op r l ps h, injectMatched_eq r l ps op hne]
    simp only [extensionUpdate_description, descriptionUpdate_description,
      summaryUpdate_description, securityUpdate_description, hd]

/-- C4 amended witness: the scheme section and the overwritten fields at
a concrete document and operation, and the description-append behaviour
at an operation that already has a description. -/
theorem c4_rerun_amended_witness :
    addSecurityScheme (addSecurityScheme exDoc) = addSecurityScheme exDoc ∧
    (addOperationScope exTable (addOperationScope exTable exOp)).security =
      (addOperationScope exTable exOp).security ∧
    (addOperationScope exTable
      { operationId := some "OrgService_ListMembers", summary := none,
        description := some "D", security := none, xScopes := none,
        xAuthType := none, xMinAccessLevel := none }).description =
      some ("D" ++ scopeInfoText
        (pyLower (removeSubStr "RESOURCE_TYPE_" "RESOURCE_TYPE_ORGANIZATION"))
        (effectiveScopes "RESOURCE_TYPE_ORGANIZATION" "ACCESS_LEVEL_READ"
          ["read:members"])) := by
  refine ⟨c4_rerun_amended.1 exDoc, ?_, ?_⟩
  · exact (c4_rerun_amended.2.1 exTable exOp "RESOURCE_TYPE_ORGANIZATION"
      "ACCESS_LEVEL_READ" ["read:members"] (by decide) (by decide)).1
  · exact c4_rerun_amended.2.2 exTable _ "RESOURCE_TYPE_ORGANIZATION"
      "ACCESS_LEVEL_READ" ["read:members"] "D" (by decide) (by decide) rfl

/-! ## Claim C5: the summary rewrite (corrected) -/

/-- C5 counterexample: an operation with an existing summary `"S"` and no
description keeps its summary unchanged; the claimed
`"S [Requires: read:members]"` is never written. -/
theorem c5_summary_counterexample :
    (addOperationScope exTable exOpSummary).summary = some "S" ∧
    (addOperationScope exTable exOpSummary).summary ≠
      some ("S " ++ requiresTag ["read:members"]) := by
  constructor <;> decide

/-- C5 amended: for a matched operation with a non-empty effective scope
list, the summary is rebuilt from the first line of the operation's
description: if that first line is non-empty the summary becomes
`<first line> [Requires: scopes]`; otherwise, if the operation has no
summary, it becomes `[Requires: scopes]`; otherwise the summary is left
unchanged. -/
theorem c5_summary_amended (table : FactTable) (op : Operation)
    (r l : String) (ps : List String)
    (h : correlate table (op.operationId.getD "") = some (r, l, ps))
    (hne : effectiveScopes r l ps ≠ []) :
    (addOperationScope table op).summary =
      (if firstLine (op.description.getD "") != "" then
        some (firstLine (op.description.getD "") ++ " " ++
          requiresTag (effectiveScopes r l ps))
      else if op.summary = none then some (requiresTag (effectiveScopes r l ps))
      else op.summary) := by
  rw [addOp_matched table op r l ps h, injectMatched_eq r l ps op hne]
  simp only [extensionUpdate_summary, descriptionUpdate_summary]
  rw [summaryUpdate_summary]
  simp only [securityUpdate_description, securityUpdate_summary]

/-- C5 amended witness: an operation with neither summary nor
description receives exactly the bracketed requirement as its summary. -/
theorem c5_summary_amended_witness :
    correlate exTable (exOp.operationId.getD "") =
      some ("RESOURCE_TYPE_ORGANIZATION", "ACCESS_LEVEL_READ", ["read:members"]) ∧
    effectiveScopes "RESOURCE_TYPE_ORGANIZATION" "ACCESS_LEVEL_READ"
      ["read:members"] ≠ [] ∧
    (addOperationScope exTable exOp).summary =
      (if firstLine (exOp.description.getD "") != "" then
        some (firstLine (exOp.description.getD "") ++ " " ++
          requiresTag (effectiveScopes "RESOURCE_TYPE_ORGANIZATION"
            "ACCESS_LEVEL_READ" ["read:members"]))
      else if exOp.summary = none then
        some (requiresTag (effectiveScopes "RESOURCE_TYPE_ORGANIZATION"
          "ACCESS_LEVEL_READ" ["read:members"]))
      else exOp.summary) := by
  refine ⟨by decide, by decide, ?_⟩
  exact c5_summary_amended exTable exOp "RESOURCE_TYPE_ORGANIZATION"
    "ACCESS_LEVEL_READ" ["read:members"] (by decide) (by decide)

/-! ## Claim C6: the resource-hierarchy table (corrected) -/

/-- C6 counterexample: a PROJECT-level fact produces Organization and
Project rows but no Account row, although the claimed ancestor chain
(account, organization, project truncated at the fact's type) contains
Account. -/
theorem c6_hierarchy_counterexample :
    containsSubStr "| Account |"
      ((addOperationScope exTableProj exOpProj).description.getD "") = false ∧
    containsSubStr "| Organization |"
      ((addOperationScope exTableProj exOpProj).description.getD "") = true ∧
    "Account" ∈ claimAncestors "project" := by
  refine ⟨by decide, by decide, by decide⟩

/-- C6 amended: the authorization block appended to the description
contains one row per (resource, scope) pair, where the resource list is
the code's hierarchy: Organization for organization, Organization and
Project for project, Organization, Project and Site for site, a single
Account row for account, and a single title-cased row for anything
else; Account is never an ancestor row of the other types. -/
theorem c6_description_amended (table : FactTable) (op : Operation)
    (r l : String) (ps : List String)
    (h : correlate table (op.operationId.getD "") = some (r, l, ps))
    (hne : effectiveScopes r l ps ≠ []) :
    (addOperationScope table op).description =
      some (match op.description with
        | some d => d ++ scopeInfoText (pyLower (removeSubStr "RESOURCE_TYPE_" r))
            (effectiveScopes r l ps)
        | none => pyStrip (scopeInfoText (pyLower (removeSubStr "RESOURCE_TYPE_" r))
            (effectiveScopes r l ps))) ∧
    (∀ (rs : String) (scopes : List String),
      scopeInfoText rs scopes =
        "\n\n### Authorization\n\n"
          ++ "An API key or OAuth token must have at least one of the following scopes in order to use this API endpoint:\n\n"
          ++ "**API Key Scopes**: `" ++ joinComma scopes ++ "`\n"
          ++ "\n**OAuth Scopes**\n\n"
          ++ "| Resource | Scope |\n"
          ++ "|----------|-------|\n"
          ++ String.join ((hierarchyGet rs).map (fun res =>
              String.join (scopes.map (fun scope =>
                "| " ++ res ++ " | `" ++ scope ++ "` |\n"))))) ∧
    hierarchyGet "account" = ["Account"] ∧
    hierarchyGet "organization" = ["Organization"] ∧
    hierarchyGet "project" = ["Organization", "Project"] ∧
    hierarchyGet "site" = ["Organization", "Project", "Site"] ∧
    (∀ rs : String,
      rs ∉ (["account", "organization", "project", "site"] : List String) →
      hierarchyGet rs = [pyTitle rs]) := by
  refine ⟨?_, fun rs scopes => rfl, by decide, by decide, by decide, by decide, ?_⟩
  · rw [addOp_matched table op r l ps h, injectMatched_eq r l ps op hne]
    simp only [extensionUpdate_description]
    rw [descriptionUpdate_description]
    simp only [summaryUpdate_description, securityUpdate_description]
  · intro rs hmem
    have h1 : rs ≠ "account" := by intro hh; exact hmem (by simp [hh])
    have h2 : rs ≠ "organization" := by intro hh; exact hmem (by simp [hh])
    have h3 : rs ≠ "project" := by intro hh; exact hmem (by simp [hh])
    have h4 : rs ≠ "site" := by intro hh; exact hmem (by simp [hh])
    simp only [hierarchyGet, resource_hierarchy, List.lookup,
      beq_eq_false_iff_ne.mpr h1, beq_eq_false_iff_ne.mpr h2,
      beq_eq_false_iff_ne.mpr h3, beq_eq_false_iff_ne.mpr h4]

/-- C6 amended witness: a PROJECT fact at a concrete operation. -/
theorem c6_description_amended_witness :
    correlate exTableProj (exOpProj.operationId.getD "") =
      some ("RESOURCE_TYPE_PROJECT", "ACCESS_LEVEL_READ", ["read:project"]) ∧
    effectiveScopes "RESOURCE_TYPE_PROJECT" "ACCESS_LEVEL_READ"
      ["read:project"] ≠ [] ∧
    (addOperationScope exTableProj exOpProj).description =
      some (match exOpProj.description with
        | some d => d ++ scopeInfoText
            (pyLower (removeSubStr "RESOURCE_TYPE_" "RESOURCE_TYPE_PROJECT"))
            (effectiveScopes "RESOURCE_TYPE_PROJECT" "ACCESS_LEVEL_READ"
              ["read:project"])
        | none => pyStrip (scopeInfoText
            (pyLower (removeSubStr "RESOURCE_TYPE_" "RESOURCE_TYPE_PROJECT"))
            (effectiveScopes "RESOURCE_TYPE_PROJECT" "ACCESS_LEVEL_READ"
              ["read:project"]))) := by
  refine ⟨by decide, by decide, ?_⟩
  exact (c6_description_amended exTableProj exOpProj "RESOURCE_TYPE_PROJECT"
    "ACCESS_LEVEL_READ" ["read:project"] (by decide) (by decide)).1

/-- C10 witness: an operation with no identifier, with fields already
present, is returned unchanged. -/
theorem c10_empty_id_unchanged_witness :
    (exOpNoId.operationId = none ∨ exOpNoId.operationId = some "") ∧
    (addOperationScope exTable exOpNoId = exOpNoId ∧
      ∀ k : String, containsSubStr "" k = true) :=
  ⟨Or.inl rfl, c10_empty_id_unchanged exTable exOpNoId (Or.inl rfl)⟩

/-! ## String-scanning lemmas for the extractor proof -/

theorem class_ne {p : Char → Bool} {c y : Char} (hc : p c = true)
    (hy : p y = false) : c ≠ y := by
  intro h
  subst h
  rw [hc] at hy
  cases hy

theorem not_mem_of_class {p : Char → Bool} {c : Char} {pat : List Char}
    (hc : p c = true) (hpat : pat.all (fun x => !p x) = true) : c ∉ pat := by
  intro hmem
  have := List.all_eq_true.mp hpat c hmem
  rw [hc] at this
  cases this

theorem all_ne_of_all_class {p : Char → Bool} {s : List Char} {y : Char}
    (h : s.all p = true) (hy : p y = false) :
    s.all (fun c => c != y) = true := by
  rw [List.all_eq_true] at h ⊢
  intro c hc
  simpa [bne_iff_ne] using class_ne (h c hc) hy

theorem takeWhile_append_stop (p : Char → Bool) (xs ys : List Char)
    (h1 : xs.all p = true) (h2 : ∀ y, ys.head? = some y → p y = false) :
    (xs ++ ys).takeWhile p = xs ∧ (xs ++ ys).dropWhile p = ys := by
  induction xs with
  | nil =>
    cases ys with
    | nil => simp
    | cons y yt =>
      have := h2 y rfl
      simp [List.takeWhile_cons, List.dropWhile_cons, this]
  | cons c cs ih =>
    rw [List.all_cons, Bool.and_eq_true] at h1
    have := ih h1.2
    simp [List.takeWhile_cons, List.dropWhile_cons, h1.1, this.1, this.2]

theorem takeWhile1_append_stop (p : Char → Bool) (xs ys : List Char)
    (hne : xs ≠ []) (h1 : xs.all p = true)
    (h2 : ∀ y, ys.head? = some y → p y = false) :
    takeWhile1 p (xs ++ ys) = some (xs, ys) := by
  have h := takeWhile_append_stop p xs ys h1 h2
  unfold takeWhile1
  rw [h.1, h.2, if_neg hne]

theorem takeWhile0_append_stop (p : Char → Bool) (xs ys : List Char)
    (h1 : xs.all p = true) (h2 : ∀ y, ys.head? = some y → p y = false) :
    takeWhile0 p (xs ++ ys) = (xs, ys) := by
  have h := takeWhile_append_stop p xs ys h1 h2
  unfold takeWhile0
  rw [h.1, h.2]

theorem takeWhile0_stop (p : Char → Bool) (ys : List Char)
    (h2 : ∀ y, ys.head? = some y → p y = false) :
    takeWhile0 p ys = ([], ys) := by
  simpa using takeWhile0_append_stop p [] ys (by simp) h2

theorem isPrefixOf_append_self (lit r : List Char) :
    lit.isPrefixOf (lit ++ r) = true :=
  List.isPrefixOf_iff_prefix.mpr ⟨r, rfl⟩

theorem pLit_self (lit r : List Char) : pLit lit (lit ++ r) = some r := by
  unfold pLit
  rw [if_pos (isPrefixOf_append_self lit r), List.drop_left]

theorem pChar_self (c : Char) (r : List Char) : pChar c (c :: r) = some r := by
  simp [pChar]

theorem prefix_split {l u v : List Char} (h : l <+: u ++ v) :
    l <+: u ∨ (u <+: l ∧ l.drop u.length <+: v) := by
  rcases List.prefix_or_prefix_of_prefix h (List.prefix_append u v) with h1 | h2
  · exact Or.inl h1
  · refine Or.inr ⟨h2, ?_⟩
    obtain ⟨t, ht⟩ := h2
    obtain ⟨w, hw⟩ := h
    subst ht
    rw [List.drop_left]
    refine ⟨w, ?_⟩
    rw [List.append_assoc] at hw
    exact List.append_cancel_left hw

theorem containsSub_cons_false {pat : List Char} {c : Char} {cs : List Char}
    (h : containsSub pat (c :: cs) = false) :
    pat.isPrefixOf (c :: cs) = false ∧ containsSub pat cs = false := by
  rw [containsSub, Bool.or_eq_false_iff] at h
  exact h

theorem containsSub_false_of_missing {pat : List Char} (tok : List Char)
    {c : Char} (hc : c ∈ pat) (htok : ∀ x ∈ tok, x ≠ c) :
    containsSub pat tok = false := by
  induction tok with
  | nil =>
    cases pat with
    | nil => simp at hc
    | cons p ps => simp [containsSub, List.isPrefixOf]
  | cons x xs ih =>
    have hpre : pat.isPrefixOf (x :: xs) = false := by
      cases hb : pat.isPrefixOf (x :: xs) with
      | false => rfl
      | true =>
        exfalso
        have hp : pat <+: x :: xs := List.isPrefixOf_iff_prefix.mp hb
        exact htok c (hp.sublist.mem hc) rfl
    rw [containsSub, hpre, Bool.false_or]
    exact ih (fun y hy => htok y (List.mem_cons_of_mem x hy))

theorem containsSub_append_false_rb {pat : List Char} {a b : List Char}
    {c : Char} (hA : containsSub pat a = false) (hB : containsSub pat b = false)
    (hhead : b.head? = some c) (hc : c ∉ pat) :
    containsSub pat (a ++ b) = false := by
  induction a with
  | nil => simpa using hB
  | cons x a' ih =>
    have hA' := containsSub_cons_false hA
    have hpre : pat.isPrefixOf (x :: (a' ++ b)) = false := by
      cases hb : pat.isPrefixOf (x :: (a' ++ b)) with
      | false => rfl
      | true =>
        exfalso
        have hb2 : pat.isPrefixOf ((x :: a') ++ b) = true := hb
        have hp : pat <+: (x :: a') ++ b :=
          List.isPrefixOf_iff_prefix.mp hb2
        rcases prefix_split hp with h1 | ⟨h2, h3⟩
        · have := hA'.1
          rw [List.isPrefixOf_iff_prefix.mpr h1] at this
          exact absurd this (by decide)
        · by_cases hl : pat.drop (x :: a').length = []
          · have hlen1 : (x :: a').length ≤ pat.length := h2.length_le
            have hlen2 : pat.length ≤ (x :: a').length := by
              have := List.drop_eq_nil_iff.mp hl
              omega
            have heq : x :: a' = pat := h2.eq_of_length (by omega)
            have := hA'.1
            rw [← heq, List.isPrefixOf_iff_prefix.mpr (List.prefix_refl _)] at this
            exact absurd this (by decide)
          · obtain ⟨y, yt, hy⟩ := List.exists_cons_of_ne_nil hl
            have hyb : b.head? = some y := by
              obtain ⟨w, hw⟩ := h3
              rw [hy] at hw
              rw [← hw]
              rfl
            have hyp : y ∈ pat := by
              have h5 : y ∈ pat.drop (x :: a').length := by
                rw [hy]
                exact List.mem_cons_self y yt
              exact List.mem_of_mem_drop h5
            rw [hhead] at hyb
            cases hyb
            exact hc hyp
    rw [List.cons_append, containsSub, hpre, Bool.false_or]
    exact ih hA'.2

theorem containsSub_append_false_lb {pat : List Char} {a b : List Char}
    {c : Char} (hA : containsSub pat a = false) (hB : containsSub pat b = false)
    (hlast : a.getLast? = some c) (hc : c ∉ pat) :
    containsSub pat (a ++ b) = false := by
  induction a with
  | nil => cases hlast
  | cons x a' ih =>
    have hA' := containsSub_cons_false hA
    have hmem : c ∈ x :: a' := by
      have h1 : (x :: a').getLast (by simp) ∈ x :: a' := List.getLast_mem _
      have h2 : (x :: a').getLast? = some ((x :: a').getLast (by simp)) :=
        List.getLast?_eq_getLast _ (by simp)
      rw [hlast] at h2
      cases h2
      exact h1
    have hpre : pat.isPrefixOf (x :: (a' ++ b)) = false := by
      cases hb : pat.isPrefixOf (x :: (a' ++ b)) with
      | false => rfl
      | true =>
        exfalso
        have hb2 : pat.isPrefixOf ((x :: a') ++ b) = true := hb
        have hp : pat <+: (x :: a') ++ b :=
          List.isPrefixOf_iff_prefix.mp hb2
        rcases prefix_split hp with h1 | ⟨h2, h3⟩
        · have := hA'.1
          rw [List.isPrefixOf_iff_prefix.mpr h1] at this
          exact absurd this (by decide)
        · exact hc (h2.sublist.mem hmem)
    rw [List.cons_append, containsSub, hpre, Bool.false_or]
    cases a' with
    | nil => simpa using hB
    | cons y yt =>
      exact ih hA'.2 (by simpa using hlast)

theorem containsSub_false_sep {pat : List Char} (hpat : pat ≠ [])
    (a m b : List Char) (hm : m ≠ []) (hmc : ∀ x ∈ m, x ∉ pat)
    (hA : containsSub pat a = false) (hB : containsSub pat b = false) :
    containsSub pat (a ++ m ++ b) = false := by
  have hM : containsSub pat m = false := by
    obtain ⟨p, ps, hp⟩ := List.exists_cons_of_ne_nil hpat
    refine containsSub_false_of_missing m (c := p) (by rw [hp]; exact List.mem_cons_self p ps) ?_
    intro x hx hcontra
    exact hmc x hx (by rw [hcontra, hp]; exact List.mem_cons_self p ps)
  obtain ⟨y, yt, hy⟩ := List.exists_cons_of_ne_nil hm
  have hMB : containsSub pat (m ++ b) = false := by
    have hlastm : m.getLast? = some (m.getLast hm) := List.getLast?_eq_getLast m hm
    exact containsSub_append_false_lb hM hB hlastm (hmc _ (List.getLast_mem hm))
  rw [List.append_assoc]
  refine containsSub_append_false_rb hA hMB ?_ (hmc y (by rw [hy]; exact List.mem_cons_self y yt))
  rw [hy]
  rfl

theorem findFirst_head {α : Type} (m : List Char → Option α) (s : List Char)
    (a : α) (h : m s = some a) : findFirst m s = some ([], a) := by
  cases s <;> simp [findFirst, h]

theorem findFirst_none_of_lit {α : Type} (m : List Char → Option α)
    (lit : List Char)
    (hreq : ∀ s a, m s = some a → lit.isPrefixOf s = true)
    (hlit : lit ≠ []) (s : List Char) (hS : containsSub lit s = false) :
    findFirst m s = none := by
  induction s with
  | nil =>
    cases hm : m [] with
    | none => simp [findFirst, hm]
    | some a =>
      exfalso
      have := List.isPrefixOf_iff_prefix.mp (hreq _ _ hm)
      exact hlit (List.prefix_nil.mp this)
  | cons x xs ih =>
    have h2 := containsSub_cons_false hS
    cases hm : m (x :: xs) with
    | some a =>
      exfalso
      have := hreq _ _ hm
      rw [h2.1] at this
      exact absurd this (by decide)
    | none => simp [findFirst, hm, ih h2.2]

theorem findFirst_append_of_lit {α : Type} (m : List Char → Option α)
    (lit : List Char)
    (hreq : ∀ s a, m s = some a → lit.isPrefixOf s = true)
    (a b : List Char) (hA : containsSub lit a = false)
    (hlast : ∀ c, a.getLast? = some c → c ∉ lit) :
    findFirst m (a ++ b) =
      (findFirst m b).map (fun pr => (a ++ pr.1, pr.2)) := by
  induction a with
  | nil => cases hfb : findFirst m b <;> simp [hfb]
  | cons x a' ih =>
    have hA' := containsSub_cons_false hA
    have hmem : ∀ hne : x :: a' ≠ [], (x :: a').getLast (by simp) ∈ x :: a' :=
      fun _ => List.getLast_mem _
    have hm : m (x :: (a' ++ b)) = none := by
      cases hm2 : m (x :: (a' ++ b)) with
      | none => rfl
      | some aa =>
        exfalso
        have hb2 : lit.isPrefixOf ((x :: a') ++ b) = true := hreq _ _ hm2
        have hp : lit <+: (x :: a') ++ b := List.isPrefixOf_iff_prefix.mp hb2
        rcases prefix_split hp with h1 | ⟨h2, h3⟩
        · have := hA'.1
          rw [List.isPrefixOf_iff_prefix.mpr h1] at this
          exact absurd this (by decide)
        · have hg : (x :: a').getLast? = some ((x :: a').getLast (by simp)) :=
            List.getLast?_eq_getLast _ (by simp)
          exact hlast _ hg (h2.sublist.mem (hmem (by simp)))
    rw [List.cons_append, findFirst, hm]
    cases a' with
    | nil =>
      cases hfb : findFirst m b <;> simp [hfb]
    | cons y yt =>
      rw [ih hA'.2 (fun c hc => hlast c (by rwa [List.getLast?_cons_cons]))]
      cases hfb : findFirst m b <;> simp [hfb]

theorem splitFirstSub_at (pat a b : List Char) (hpat : pat ≠ [])
    (hA : containsSub pat a = false)
    (hlast : ∀ c, a.getLast? = some c → c ∉ pat) :
    splitFirstSub pat (a ++ (pat ++ b)) = some (a, b) := by
  induction a with
  | nil =>
    obtain ⟨p, ps, hp⟩ := List.exists_cons_of_ne_nil hpat
    rw [List.nil_append]
    have : pat ++ b = p :: (ps ++ b) := by rw [hp]; rfl
    rw [this, splitFirstSub]
    rw [← this, if_pos (isPrefixOf_append_self pat b), List.drop_left]
  | cons x a' ih =>
    have hA' := containsSub_cons_false hA
    have hpre : pat.isPrefixOf (x :: (a' ++ (pat ++ b))) = false := by
      cases hb : pat.isPrefixOf (x :: (a' ++ (pat ++ b))) with
      | false => rfl
      | true =>
        exfalso
        have hb2 : pat.isPrefixOf ((x :: a') ++ (pat ++ b)) = true := hb
        have hp : pat <+: (x :: a') ++ (pat ++ b) :=
          List.isPrefixOf_iff_prefix.mp hb2
        rcases prefix_split hp with h1 | ⟨h2, h3⟩
        · have := hA'.1
          rw [List.isPrefixOf_iff_prefix.mpr h1] at this
          exact absurd this (by decide)
        · have hg : (x :: a').getLast? = some ((x :: a').getLast (by simp)) :=
            List.getLast?_eq_getLast _ (by simp)
          exact hlast _ hg (h2.sublist.mem (List.getLast_mem _))
    rw [List.cons_append, splitFirstSub, if_neg (by rw [hpre]; exact (by decide))]
    cases a' with
    | nil =>
      rw [List.nil_append] at *
      rw [ih (by simp [containsSub, List.isPrefixOf]) (fun c hc => by cases hc)]
      rfl
    | cons y yt =>
      rw [ih hA'.2 (fun c hc => hlast c (by rwa [List.getLast?_cons_cons]))]
      rfl

theorem word_not_space {c : Char} (h : isWordChar c = true) :
    isPySpace c = false := by
  cases hs : isPySpace c with
  | false => rfl
  | true =>
    exfalso
    have hd : ((((c = ' ' ∨ c = '\t') ∨ c = '\n') ∨ c = '\r') ∨ c = '\x0b') ∨
        c = '\x0c' := by
      simpa [isPySpace, Bool.or_eq_true, beq_iff_eq] using hs
    rcases hd with ((((rfl | rfl) | rfl) | rfl) | rfl) | rfl <;>
      exact absurd h (by decide)

theorem wordDot_not_space {c : Char} (h : isWordDot c = true) :
    isPySpace c = false := by
  rw [isWordDot, Bool.or_eq_true] at h
  rcases h with h | h
  · exact word_not_space h
  · rw [beq_iff_eq] at h
    subst h
    rfl

theorem head_false_of_all {p : Char → Bool} {tok : List Char} (rest : List Char)
    (hne : tok ≠ []) (htok : ∀ c ∈ tok, p c = false) :
    ∀ y, (tok ++ rest).head? = some y → p y = false := by
  obtain ⟨c, ct, rfl⟩ := List.exists_cons_of_ne_nil hne
  intro y hy
  rw [List.cons_append, List.head?_cons] at hy
  cases hy
  exact htok c (List.mem_cons_self c ct)

theorem takeWhile0_cons_one {p : Char → Bool} (c : Char) (ys : List Char)
    (hc : p c = true) (hstop : ∀ y, ys.head? = some y → p y = false) :
    takeWhile0 p (c :: ys) = ([c], ys) :=
  takeWhile0_append_stop p [c] ys (by simp [hc]) hstop

theorem takeWhile1_cons_one {p : Char → Bool} (c : Char) (ys : List Char)
    (hc : p c = true) (hstop : ∀ y, ys.head? = some y → p y = false) :
    takeWhile1 p (c :: ys) = some ([c], ys) :=
  takeWhile1_append_stop p [c] ys (by simp) (by simp [hc]) hstop

theorem cleanWordTok_spec {s : List Char} (h : cleanWordTokB s = true) :
    s ≠ [] ∧ s.all isWordChar = true ∧
      ∀ lit ∈ badLits, containsSub lit s = false := by
  rw [cleanWordTokB, Bool.and_eq_true, Bool.and_eq_true] at h
  refine ⟨by simpa using h.1.1, h.1.2, ?_⟩
  intro lit hlit
  have := List.all_eq_true.mp h.2 lit hlit
  simpa using this

theorem cleanScopeTok_spec {s : List Char} (h : cleanScopeTokB s = true) :
    s ≠ [] ∧ s.all scopeChar = true ∧
      ∀ lit ∈ badLits, containsSub lit s = false := by
  rw [cleanScopeTokB, Bool.and_eq_true, Bool.and_eq_true] at h
  refine ⟨by simpa using h.1.1, h.1.2, ?_⟩
  intro lit hlit
  have := List.all_eq_true.mp h.2 lit hlit
  simpa using this

theorem cleanPkg_spec {s : List Char} (h : cleanPkgB s = true) :
    s ≠ [] ∧ s.all isWordDot = true ∧
      ∀ lit ∈ badLits, containsSub lit s = false := by
  rw [cleanPkgB, Bool.and_eq_true, Bool.and_eq_true] at h
  refine ⟨by simpa using h.1.1, h.1.2, ?_⟩
  intro lit hlit
  have := List.all_eq_true.mp h.2 lit hlit
  simpa using this

theorem matchPackage_lit : ∀ s a, matchPackage s = some a →
    "package".data.isPrefixOf s = true := by
  intro s a h
  cases hb : ("package".data).isPrefixOf s with
  | true => rfl
  | false =>
    unfold matchPackage pLit at h
    rw [hb] at h
    simp at h

theorem matchServiceHeader_lit : ∀ s a, matchServiceHeader s = some a →
    "service".data.isPrefixOf s = true := by
  intro s a h
  cases hb : ("service".data).isPrefixOf s with
  | true => rfl
  | false =>
    unfold matchServiceHeader pLit at h
    rw [hb] at h
    simp at h

theorem matchRpc_lit : ∀ s a, matchRpc s = some a →
    "rpc".data.isPrefixOf s = true := by
  intro s a h
  cases hb : ("rpc".data).isPrefixOf s with
  | true => rfl
  | false =>
    unfold matchRpc pLit at h
    rw [hb] at h
    simp at h

theorem matchScopeOption_lit : ∀ s a, matchScopeOption s = some a →
    "option".data.isPrefixOf s = true := by
  intro s a h
  cases hb : ("option".data).isPrefixOf s with
  | true => rfl
  | false =>
    unfold matchScopeOption pLit at h
    rw [hb] at h
    simp at h

theorem matchResource_lit : ∀ s a, matchResource s = some a →
    "resource:".data.isPrefixOf s = true := by
  intro s a h
  cases hb : ("resource:".data).isPrefixOf s with
  | true => rfl
  | false =>
    unfold matchResource pLit at h
    rw [hb] at h
    simp at h

theorem matchLevel_lit : ∀ s a, matchLevel s = some a →
    "level:".data.isPrefixOf s = true := by
  intro s a h
  cases hb : ("level:".data).isPrefixOf s with
  | true => rfl
  | false =>
    unfold matchLevel pLit at h
    rw [hb] at h
    simp at h

theorem matchOauth_lit : ∀ s a, matchOauth s = some a →
    "oauth_scopes:".data.isPrefixOf s = true := by
  intro s a h
  cases hb : ("oauth_scopes:".data).isPrefixOf s with
  | true => rfl
  | false =>
    unfold matchOauth pLit at h
    rw [hb] at h
    simp at h

theorem head_not_space_word (tok rest : List Char) (hne : tok ≠ [])
    (hall : tok.all isWordChar = true) :
    ∀ y, (tok ++ rest).head? = some y → isPySpace y = false :=
  head_false_of_all rest hne
    (fun c hc => word_not_space (List.all_eq_true.mp hall c hc))

theorem head_not_space_wordDot (tok rest : List Char) (hne : tok ≠ [])
    (hall : tok.all isWordDot = true) :
    ∀ y, (tok ++ rest).head? = some y → isPySpace y = false :=
  head_false_of_all rest hne
    (fun c hc => wordDot_not_space (List.all_eq_true.mp hall c hc))

theorem matchOauth_eval (s rest : List Char) (hs : cleanScopeTokB s = true) :
    matchOauth ("oauth_scopes:".data ++ ' ' :: '"' :: (s ++ '"' :: rest)) =
      some (s, rest) := by
  obtain ⟨hne, hall, _⟩ := cleanScopeTok_spec hs
  unfold matchOauth
  rw [pLit_self]
  dsimp only
  rw [takeWhile0_cons_one ' ' _ (by decide)
    (fun y hy => by rw [List.head?_cons] at hy; cases hy; decide)]
  dsimp only
  rw [pChar_self]
  dsimp only
  rw [takeWhile1_append_stop _ s ('"' :: rest) hne
    (all_ne_of_all_class hall (by decide))
    (fun y hy => by rw [List.head?_cons] at hy; cases hy; decide)]
  dsimp only
  rw [pChar_self]

theorem matchResource_eval (suf rest : List Char)
    (hsuf : cleanWordTokB suf = true)
    (hrest : ∀ y, rest.head? = some y → isWordChar y = false) :
    matchResource ("resource:".data ++ ' ' ::
        ("RESOURCE_TYPE_".data ++ (suf ++ rest))) =
      some ("RESOURCE_TYPE_".data ++ suf) := by
  obtain ⟨hne, hall, _⟩ := cleanWordTok_spec hsuf
  unfold matchResource
  rw [pLit_self]
  dsimp only
  rw [takeWhile0_cons_one ' ' _ (by decide)
    (fun y hy => by
      rw [show (("RESOURCE_TYPE_".data ++ (suf ++ rest)).head? : Option Char) =
        some 'R' from rfl] at hy
      cases hy
      decide)]
  dsimp only
  rw [pLit_self]
  dsimp only
  rw [takeWhile1_append_stop _ suf rest hne hall hrest]

theorem matchLevel_eval (suf rest : List Char)
    (hsuf : cleanWordTokB suf = true)
    (hrest : ∀ y, rest.head? = some y → isWordChar y = false) :
    matchLevel ("level:".data ++ ' ' ::
        ("ACCESS_LEVEL_".data ++ (suf ++ rest))) =
      some ("ACCESS_LEVEL_".data ++ suf) := by
  obtain ⟨hne, hall, _⟩ := cleanWordTok_spec hsuf
  unfold matchLevel
  rw [pLit_self]
  dsimp only
  rw [takeWhile0_cons_one ' ' _ (by decide)
    (fun y hy => by
      rw [show (("ACCESS_LEVEL_".data ++ (suf ++ rest)).head? : Option Char) =
        some 'A' from rfl] at hy
      cases hy
      decide)]
  dsimp only
  rw [pLit_self]
  dsimp only
  rw [takeWhile1_append_stop _ suf rest hne hall hrest]

theorem matchPackage_eval (p rest : List Char) (hp : cleanPkgB p = true) :
    matchPackage ("package".data ++ ' ' :: (p ++ ';' :: rest)) = some p := by
  obtain ⟨hne, hall, _⟩ := cleanPkg_spec hp
  unfold matchPackage
  rw [pLit_self]
  dsimp only
  rw [takeWhile1_cons_one ' ' _ (by decide)
    (head_not_space_wordDot p (';' :: rest) hne hall)]
  dsimp only
  rw [takeWhile1_append_stop _ p (';' :: rest) hne hall
    (fun y hy => by rw [List.head?_cons] at hy; cases hy; decide)]
  dsimp only
  rw [takeWhile0_stop _ _
    (fun y hy => by rw [List.head?_cons] at hy; cases hy; decide)]
  dsimp only
  rw [pChar_self]

theorem matchServiceHeader_eval (name rest : List Char)
    (hname : cleanWordTokB name = true) :
    matchServiceHeader ("service".data ++ ' ' :: (name ++ ' ' :: '\x7b' :: rest)) =
      some (name, "service".data ++ [' '] ++ name ++ [' '] ++ ['\x7b'], rest) := by
  obtain ⟨hne, hall, _⟩ := cleanWordTok_spec hname
  unfold matchServiceHeader
  rw [pLit_self]
  dsimp only
  rw [takeWhile1_cons_one ' ' _ (by decide)
    (head_not_space_word name (' ' :: '\x7b' :: rest) hne hall)]
  dsimp only
  rw [takeWhile1_append_stop _ name (' ' :: '\x7b' :: rest) hne hall
    (fun y hy => by rw [List.head?_cons] at hy; cases hy; decide)]
  dsimp only
  rw [takeWhile0_cons_one ' ' _ (by decide)
    (fun y hy => by rw [List.head?_cons] at hy; cases hy; decide)]
  dsimp only
  rw [pChar_self]

theorem matchScopeOption_eval (inner rest : List Char) (hne : inner ≠ [])
    (hinner : inner.all (fun c => c != '\x7d') = true) :
    matchScopeOption ("option".data ++ ' ' ::
        ("(libops.v1.options.required_scope)".data ++ ' ' :: '=' :: ' ' ::
          '\x7b' :: (inner ++ '\x7d' :: rest))) = some inner := by
  unfold matchScopeOption
  rw [pLit_self]
  dsimp only
  rw [takeWhile1_cons_one ' ' _ (by decide)
    (fun y hy => by
      rw [show (("(libops.v1.options.required_scope)".data ++ ' ' :: '=' :: ' ' ::
        '\x7b' :: (inner ++ '\x7d' :: rest)).head? : Option Char) =
        some '(' from rfl] at hy
      cases hy
      decide)]
  dsimp only
  rw [pLit_self]
  dsimp only
  rw [takeWhile0_cons_one ' ' _ (by decide)
    (fun y hy => by rw [List.head?_cons] at hy; cases hy; decide)]
  dsimp only
  rw [pChar_self]
  dsimp only
  rw [takeWhile0_cons_one ' ' _ (by decide)
    (fun y hy => by rw [List.head?_cons] at hy; cases hy; decide)]
  dsimp only
  rw [pChar_self]
  dsimp only
  rw [takeWhile1_append_stop _ inner ('\x7d' :: rest) hne hinner
    (fun y hy => by rw [List.head?_cons] at hy; cases hy; decide)]
  dsimp only
  rw [pChar_self]

theorem matchRpc_eval (name req res body tail : List Char)
    (hname : cleanWordTokB name = true) (hreq : cleanWordTokB req = true)
    (hres : cleanWordTokB res = true)
    (hbody : containsSub "\n  \x7d".data body = false)
    (hlast : ∀ c, body.getLast? = some c → c ∉ "\n  \x7d".data) :
    matchRpc ("rpc".data ++ ' ' :: (name ++ ' ' :: '(' ::
        (req ++ ')' :: ' ' :: ("returns".data ++ ' ' :: '(' ::
          (res ++ ')' :: ' ' :: '\x7b' :: (body ++ ("\n  \x7d".data ++ tail))))))) =
      some (name, body, tail) := by
  obtain ⟨hnameNe, hnameAll, _⟩ := cleanWordTok_spec hname
  obtain ⟨hreqNe, hreqAll, _⟩ := cleanWordTok_spec hreq
  obtain ⟨hresNe, hresAll, _⟩ := cleanWordTok_spec hres
  unfold matchRpc
  rw [pLit_self]
  dsimp only
  rw [takeWhile1_cons_one ' ' _ (by decide)
    (head_not_space_word name _ hnameNe hnameAll)]
  dsimp only
  rw [takeWhile1_append_stop _ name _ hnameNe hnameAll
    (fun y hy => by rw [List.head?_cons] at hy; cases hy; decide)]
  dsimp only
  rw [takeWhile0_cons_one ' ' _ (by decide)
    (fun y hy => by rw [List.head?_cons] at hy; cases hy; decide)]
  dsimp only
  rw [pChar_self]
  dsimp only
  rw [takeWhile1_append_stop _ req _ hreqNe
    (all_ne_of_all_class hreqAll (by decide))
    (fun y hy => by rw [List.head?_cons] at hy; cases hy; decide)]
  dsimp only
  rw [pChar_self]
  dsimp only
  rw [takeWhile1_cons_one ' ' _ (by decide)
    (fun y hy => by
      rw [show (("returns".data ++ ' ' :: '(' ::
        (res ++ ')' :: ' ' :: '\x7b' :: (body ++ ("\n  \x7d".data ++ tail)))).head? :
        Option Char) = some 'r' from rfl] at hy
      cases hy
      decide)]
  dsimp only
  rw [pLit_self]
  dsimp only
  rw [takeWhile1_cons_one ' ' _ (by decide)
    (fun y hy => by rw [List.head?_cons] at hy; cases hy; decide)]
  dsimp only
  rw [pChar_self]
  dsimp only
  rw [takeWhile1_append_stop _ res _ hresNe
    (all_ne_of_all_class hresAll (by decide))
    (fun y hy => by rw [List.head?_cons] at hy; cases hy; decide)]
  dsimp only
  rw [pChar_self]
  dsimp only
  rw [takeWhile0_cons_one ' ' _ (by decide)
    (fun y hy => by rw [List.head?_cons] at hy; cases hy; decide)]
  dsimp only
  rw [pChar_self]
  dsimp only
  rw [show body ++ ("\n  \x7d".data ++ tail) =
    body ++ ("\n  \x7d".data ++ tail) from rfl]
  rw [splitFirstSub_at "\n  \x7d".data body tail (by decide) hbody hlast]

theorem not_mem_of_all {p : Char → Bool} {pat : List Char} {c : Char}
    (hpat : pat.all p = true) (hc : p c = false) : c ∉ pat := by
  intro h
  have := List.all_eq_true.mp hpat c h
  rw [this] at hc
  exact absurd hc (by decide)

theorem containsSub_nil_ne {pat : List Char} (h : pat ≠ []) :
    containsSub pat [] = false := by
  obtain ⟨p, ps, rfl⟩ := List.exists_cons_of_ne_nil h
  simp [containsSub, List.isPrefixOf]

theorem containsSub_false_alpha_tok (lit : List Char) (hne : lit ≠ [])
    (halpha : lit.all Char.isAlpha = true) (tok : List Char)
    (htok : tok.all (fun c => !c.isAlpha) = true) :
    containsSub lit tok = false := by
  obtain ⟨c0, cs, rfl⟩ := List.exists_cons_of_ne_nil hne
  refine containsSub_false_of_missing tok (c := c0) (List.mem_cons_self c0 cs) ?_
  intro x hx hcontra
  have h1 := List.all_eq_true.mp htok x hx
  have h2 := List.all_eq_true.mp halpha c0 (List.mem_cons_self c0 cs)
  rw [hcontra, h2] at h1
  exact absurd h1 (by decide)

theorem badLit_facts (lit : List Char) (hmem : lit ∈ badLits) :
    lit ≠ [] ∧ lit.all Char.isAlpha = true ∧
      (lit = "service".data ∨ lit = "rpc".data ∨ lit = "package".data) := by
  have hd : lit = "service".data ∨ lit = "rpc".data ∨ lit = "package".data := by
    simpa [badLits] using hmem
  refine ⟨?_, ?_, hd⟩ <;> rcases hd with rfl | rfl | rfl <;> decide

theorem annOK_spec {a : MethodAnn} (h : annOK a = true) :
    (∃ suf, a.resource = "RESOURCE_TYPE_".data ++ suf ∧ cleanWordTokB suf = true) ∧
    (∃ suf, a.level = "ACCESS_LEVEL_".data ++ suf ∧ cleanWordTokB suf = true) ∧
    ∀ s ∈ a.oauthScopes, cleanScopeTokB s = true := by
  rw [annOK, Bool.and_eq_true, Bool.and_eq_true, Bool.and_eq_true,
    Bool.and_eq_true] at h
  obtain ⟨⟨⟨⟨hr1, hr2⟩, hl1⟩, hl2⟩, hsc⟩ := h
  refine ⟨⟨a.resource.drop 14, ?_, hr2⟩, ⟨a.level.drop 13, ?_, hl2⟩, ?_⟩
  · obtain ⟨t, ht⟩ := List.isPrefixOf_iff_prefix.mp hr1
    rw [← ht]
    congr 1
  · obtain ⟨t, ht⟩ := List.isPrefixOf_iff_prefix.mp hl1
    rw [← ht]
    congr 1
  · intro s hs
    exact List.all_eq_true.mp hsc s hs

theorem rpcOK_spec {m : RpcDecl} (h : rpcOK m = true) :
    cleanWordTokB m.name = true ∧ cleanWordTokB m.reqType = true ∧
      cleanWordTokB m.resType = true ∧
      ∀ a, m.ann = some a → annOK a = true := by
  rw [rpcOK, Bool.and_eq_true, Bool.and_eq_true, Bool.and_eq_true] at h
  obtain ⟨⟨⟨h1, h2⟩, h3⟩, h4⟩ := h
  refine ⟨h1, h2, h3, ?_⟩
  intro a ha
  rw [ha] at h4
  exact h4

theorem serviceOK_spec {sv : ServiceDecl} (h : serviceOK sv = true) :
    cleanWordTokB sv.name = true ∧ ∀ m ∈ sv.rpcs, rpcOK m = true := by
  rw [serviceOK, Bool.and_eq_true] at h
  exact ⟨h.1, fun m hm => List.all_eq_true.mp h.2 m hm⟩

theorem avoid_resource (lit : List Char) (hmem : lit ∈ badLits)
    (suf : List Char) (hsuf : cleanWordTokB suf = true) :
    containsSub lit ("RESOURCE_TYPE_".data ++ suf) = false := by
  obtain ⟨hlit, halpha, hd⟩ := badLit_facts lit hmem
  obtain ⟨_, _, htok⟩ := cleanWordTok_spec hsuf
  refine containsSub_append_false_lb (c := '_') ?_ (htok lit hmem) rfl
    (not_mem_of_all halpha (by decide))
  rcases hd with rfl | rfl | rfl <;> decide

theorem avoid_level (lit : List Char) (hmem : lit ∈ badLits)
    (suf : List Char) (hsuf : cleanWordTokB suf = true) :
    containsSub lit ("ACCESS_LEVEL_".data ++ suf) = false := by
  obtain ⟨hlit, halpha, hd⟩ := badLit_facts lit hmem
  obtain ⟨_, _, htok⟩ := cleanWordTok_spec hsuf
  refine containsSub_append_false_lb (c := '_') ?_ (htok lit hmem) rfl
    (not_mem_of_all halpha (by decide))
  rcases hd with rfl | rfl | rfl <;> decide

theorem avoid_scopeLine (lit : List Char) (hmem : lit ∈ badLits)
    (s : List Char) (hs : cleanScopeTokB s = true) :
    containsSub lit (renderScopeLine s) = false := by
  obtain ⟨hlit, halpha, hd⟩ := badLit_facts lit hmem
  obtain ⟨_, _, htok⟩ := cleanScopeTok_spec hs
  rw [renderScopeLine]
  refine containsSub_append_false_rb (c := '"') ?_
    (containsSub_false_alpha_tok lit hlit halpha _ (by decide)) rfl
    (not_mem_of_all halpha (by decide))
  refine containsSub_append_false_lb (c := '"') ?_ (htok lit hmem)
    (by rfl) (not_mem_of_all halpha (by decide))
  rcases hd with rfl | rfl | rfl <;> decide

theorem avoid_scopeLines (lit : List Char) (hmem : lit ∈ badLits)
    (scopes : List (List Char)) (hsc : ∀ s ∈ scopes, cleanScopeTokB s = true) :
    containsSub lit ((scopes.map renderScopeLine).flatten) = false := by
  obtain ⟨hlit, halpha, hd⟩ := badLit_facts lit hmem
  induction scopes with
  | nil => exact containsSub_nil_ne hlit
  | cons s ss ih =>
    rw [List.map_cons, List.flatten_cons]
    refine containsSub_append_false_lb (c := '"')
      (avoid_scopeLine lit hmem s (hsc s (List.mem_cons_self s ss)))
      (ih (fun x hx => hsc x (List.mem_cons_of_mem s hx))) ?_
      (not_mem_of_all halpha (by decide))
    rw [renderScopeLine, List.getLast?_append_of_ne_nil _ (by decide)]
    rfl

theorem avoid_annInner (lit : List Char) (hmem : lit ∈ badLits)
    (a : MethodAnn) (h : annOK a = true) :
    containsSub lit (annInner a) = false := by
  obtain ⟨hlit, halpha, hd⟩ := badLit_facts lit hmem
  obtain ⟨⟨rsuf, hres, hrsuf⟩, ⟨lsuf, hlev, hlsuf⟩, hsc⟩ := annOK_spec h
  rw [annInner, hres, hlev]
  refine containsSub_append_false_rb (c := '\n') ?_
    (containsSub_false_alpha_tok lit hlit halpha _ (by decide)) rfl
    (not_mem_of_all halpha (by decide))
  have hLines := avoid_scopeLines lit hmem a.oauthScopes hsc
  have hResPart : containsSub lit
      ("\n      resource: ".data ++ ("RESOURCE_TYPE_".data ++ rsuf)) = false := by
    refine containsSub_append_false_rb (c := 'R') ?_
      (avoid_resource lit hmem rsuf hrsuf) rfl ?_
    · rcases hd with rfl | rfl | rfl <;> decide
    · rcases hd with rfl | rfl | rfl <;> decide
  have hLevPart : containsSub lit
      ("\n      level: ".data ++ ("ACCESS_LEVEL_".data ++ lsuf)) = false := by
    refine containsSub_append_false_rb (c := 'A') ?_
      (avoid_level lit hmem lsuf hlsuf) rfl ?_
    · rcases hd with rfl | rfl | rfl <;> decide
    · rcases hd with rfl | rfl | rfl <;> decide
  have hTwo : containsSub lit
      (("\n      resource: ".data ++ ("RESOURCE_TYPE_".data ++ rsuf)) ++
        ("\n      level: ".data ++ ("ACCESS_LEVEL_".data ++ lsuf))) = false := by
    refine containsSub_append_false_rb (c := '\n') hResPart hLevPart rfl
      (not_mem_of_all halpha (by decide))
  have hshape : "\n      resource: ".data ++ ("RESOURCE_TYPE_".data ++ rsuf) ++
      "\n      level: ".data ++ ("ACCESS_LEVEL_".data ++ lsuf) ++
      (a.oauthScopes.map renderScopeLine).flatten =
      (("\n      resource: ".data ++ ("RESOURCE_TYPE_".data ++ rsuf)) ++
        ("\n      level: ".data ++ ("ACCESS_LEVEL_".data ++ lsuf))) ++
      (a.oauthScopes.map renderScopeLine).flatten := by
    simp [List.append_assoc]
  rw [hshape]
  cases hflat : (a.oauthScopes.map renderScopeLine).flatten with
  | nil => simpa using hTwo
  | cons y yt =>
    refine containsSub_append_false_rb (c := '\n') hTwo (hflat ▸ hLines) ?_
      (not_mem_of_all halpha (by decide))
    cases hsc2 : a.oauthScopes with
    | nil => rw [hsc2] at hflat; simp at hflat
    | cons s0 ss0 =>
      rw [hsc2] at hflat
      rw [List.map_cons, List.flatten_cons, renderScopeLine] at hflat
      rw [← hflat]
      rfl

theorem avoid_renderAnn (lit : List Char) (hmem : lit ∈ badLits)
    (a : MethodAnn) (h : annOK a = true) :
    containsSub lit (renderAnn a) = false := by
  obtain ⟨hlit, halpha, hd⟩ := badLit_facts lit hmem
  rw [renderAnn]
  refine containsSub_append_false_rb (c := '\x7d') ?_
    (containsSub_false_alpha_tok lit hlit halpha _ (by decide)) rfl
    (not_mem_of_all halpha (by decide))
  refine containsSub_append_false_lb (c := '\x7b') ?_
    (avoid_annInner lit hmem a h) (by rfl) (not_mem_of_all halpha (by decide))
  rcases hd with rfl | rfl | rfl <;> decide

theorem avoid_rpcBody (lit : List Char) (hmem : lit ∈ badLits)
    (m : RpcDecl) (h : rpcOK m = true) :
    containsSub lit
      (match m.ann with
       | some a => renderAnn a
       | none => []) = false := by
  obtain ⟨hlit, _, _⟩ := badLit_facts lit hmem
  obtain ⟨_, _, _, hann⟩ := rpcOK_spec h
  cases hma : m.ann with
  | none => exact containsSub_nil_ne hlit
  | some a => exact avoid_renderAnn lit hmem a (hann a hma)

theorem avoid_renderRpc (lit : List Char)
    (hd2 : lit = "service".data ∨ lit = "package".data)
    (m : RpcDecl) (h : rpcOK m = true) :
    containsSub lit (renderRpc m) = false := by
  have hmem : lit ∈ badLits := by rcases hd2 with rfl | rfl <;> decide
  obtain ⟨hlit, halpha, _⟩ := badLit_facts lit hmem
  obtain ⟨hname, hreq, hres, _⟩ := rpcOK_spec h
  rw [renderRpc]
  refine containsSub_append_false_rb (c := '\n') ?_
    (containsSub_false_alpha_tok lit hlit halpha _ (by decide)) rfl
    (not_mem_of_all halpha (by decide))
  refine containsSub_append_false_lb (c := '\x7b') ?_
    (avoid_rpcBody lit hmem m h) ?_ (not_mem_of_all halpha (by decide))
  swap
  · rw [List.getLast?_append_of_ne_nil _ (by decide)]
    rfl
  refine containsSub_append_false_rb (c := ')') ?_
    (containsSub_false_alpha_tok lit hlit halpha _ (by decide)) rfl
    (not_mem_of_all halpha (by decide))
  refine containsSub_append_false_lb (c := '(') ?_
    ((cleanWordTok_spec hres).2.2 lit hmem) ?_
    (not_mem_of_all halpha (by decide))
  swap
  · rw [List.getLast?_append_of_ne_nil _ (by decide)]
    rfl
  refine containsSub_append_false_rb (c := ')') ?_ ?_ rfl
    (not_mem_of_all halpha (by decide))
  swap
  · rcases hd2 with rfl | rfl <;> decide
  refine containsSub_append_false_lb (c := '(') ?_
    ((cleanWordTok_spec hreq).2.2 lit hmem) ?_
    (not_mem_of_all halpha (by decide))
  swap
  · rw [List.getLast?_append_of_ne_nil _ (by decide)]
    rfl
  refine containsSub_append_false_rb (c := ' ') ?_
    (containsSub_false_alpha_tok lit hlit halpha _ (by decide)) rfl
    (not_mem_of_all halpha (by decide))
  refine containsSub_append_false_lb (c := ' ') ?_
    ((cleanWordTok_spec hname).2.2 lit hmem) (by rfl)
    (not_mem_of_all halpha (by decide))
  rcases hd2 with rfl | rfl <;> decide

theorem avoid_flattenRpcs (lit : List Char)
    (hd2 : lit = "service".data ∨ lit = "package".data)
    (rpcs : List RpcDecl) (h : ∀ m ∈ rpcs, rpcOK m = true) :
    containsSub lit ((rpcs.map renderRpc).flatten) = false := by
  have hmem : lit ∈ badLits := by rcases hd2 with rfl | rfl <;> decide
  obtain ⟨hlit, halpha, _⟩ := badLit_facts lit hmem
  induction rpcs with
  | nil => exact containsSub_nil_ne hlit
  | cons m ms ih =>
    rw [List.map_cons, List.flatten_cons]
    refine containsSub_append_false_lb (c := '\n')
      (avoid_renderRpc lit hd2 m (h m (List.mem_cons_self m ms)))
      (ih (fun x hx => h x (List.mem_cons_of_mem m hx))) ?_
      (not_mem_of_all halpha (by decide))
    rw [renderRpc, List.getLast?_append_of_ne_nil _ (by decide)]
    rfl

theorem avoid_service_pkgLine (p : List Char) (hp : cleanPkgB p = true) :
    containsSub "service".data ("package ".data ++ p ++ ";\n\n".data) = false := by
  obtain ⟨hne, hall, htok⟩ := cleanPkg_spec hp
  refine containsSub_append_false_rb (c := ';') ?_ (by decide) rfl (by decide)
  refine containsSub_append_false_lb (c := ' ') (by decide)
    (htok "service".data (by decide)) (by rfl) (by decide)

theorem avoid_package_renderService (sv : ServiceDecl)
    (h : serviceOK sv = true) :
    containsSub "package".data (renderService sv) = false := by
  obtain ⟨hname, hrpcs⟩ := serviceOK_spec h
  rw [renderService]
  refine containsSub_append_false_rb (c := '\x7d') ?_ (by decide) rfl (by decide)
  refine containsSub_append_false_lb (c := '\n') ?_
    (avoid_flattenRpcs "package".data (Or.inr rfl) sv.rpcs hrpcs) ?_ (by decide)
  swap
  · rw [List.getLast?_append_of_ne_nil _ (by decide)]
    rfl
  refine containsSub_append_false_rb (c := ' ') ?_ (by decide) rfl (by decide)
  refine containsSub_append_false_lb (c := ' ') (by decide)
    ((cleanWordTok_spec hname).2.2 "package".data (by decide)) (by rfl) (by decide)

theorem avoid_package_flattenServices (svs : List ServiceDecl)
    (h : ∀ sv ∈ svs, serviceOK sv = true) :
    containsSub "package".data ((svs.map renderService).flatten) = false := by
  induction svs with
  | nil => exact containsSub_nil_ne (by decide)
  | cons sv svt ih =>
    rw [List.map_cons, List.flatten_cons]
    refine containsSub_append_false_lb (c := '\n')
      (avoid_package_renderService sv (h sv (List.mem_cons_self sv svt)))
      (ih (fun x hx => h x (List.mem_cons_of_mem sv hx))) ?_ (by decide)
    rw [renderService, List.getLast?_append_of_ne_nil _ (by decide)]
    rfl

theorem containsSub_false_tok {pat tok : List Char} {p : Char → Bool} (c : Char)
    (hc : c ∈ pat) (hcp : p c = false) (htok : tok.all p = true) :
    containsSub pat tok = false :=
  containsSub_false_of_missing tok hc
    (fun x hx => class_ne (List.all_eq_true.mp htok x hx) hcp)

theorem scopeLine_ne_nil (s : List Char) : renderScopeLine s ≠ [] := by
  intro hc
  rw [renderScopeLine] at hc
  have := (List.append_eq_nil.mp hc).1
  have := (List.append_eq_nil.mp this).1
  exact absurd this (by decide)

theorem scopeLines_ne_nil (s0 : List Char) (ss : List (List Char)) :
    (((s0 :: ss).map renderScopeLine).flatten) ≠ [] := by
  intro hc
  rw [List.map_cons, List.flatten_cons] at hc
  exact scopeLine_ne_nil s0 (List.append_eq_nil.mp hc).1

theorem scopeLines_getLast (s0 : List Char) (ss : List (List Char)) :
    ((((s0 :: ss).map renderScopeLine).flatten)).getLast? = some '"' := by
  induction ss generalizing s0 with
  | nil =>
    rw [List.map_cons, List.map_nil, List.flatten_cons, List.flatten_nil,
      List.append_nil, renderScopeLine,
      List.getLast?_append_of_ne_nil _ (by decide)]
    rfl
  | cons s1 st ih =>
    rw [List.map_cons, List.flatten_cons,
      List.getLast?_append_of_ne_nil _ (scopeLines_ne_nil s1 st)]
    exact ih s1

theorem scopeLines_length (scopes : List (List Char)) :
    scopes.length ≤ ((scopes.map renderScopeLine).flatten).length := by
  induction scopes with
  | nil => simp
  | cons s ss ih =>
    rw [List.map_cons, List.flatten_cons, List.length_append, List.length_cons]
    have h1 : 1 ≤ (renderScopeLine s).length := by
      cases hr : renderScopeLine s with
      | nil => exact absurd hr (scopeLine_ne_nil s)
      | cons c cs => simp
    omega

theorem scTail_head (scopes : List (List Char)) (tail : List Char) :
    ((((scopes.map renderScopeLine).flatten) ++ ('\n' :: tail)).head? :
      Option Char) = some '\n' := by
  cases scopes with
  | nil => rfl
  | cons s ss =>
    rw [List.map_cons, List.flatten_cons, renderScopeLine]
    rfl

theorem scopeLines_no_brace (scopes : List (List Char))
    (hsc : ∀ s ∈ scopes, cleanScopeTokB s = true) :
    (((scopes.map renderScopeLine).flatten)).all (fun c => c != '\x7d') = true := by
  induction scopes with
  | nil => simp
  | cons s ss ih =>
    rw [List.map_cons, List.flatten_cons, List.all_append]
    have hs := cleanScopeTok_spec (hsc s (List.mem_cons_self s ss))
    have h1 : (renderScopeLine s).all (fun c => c != '\x7d') = true := by
      rw [renderScopeLine, List.all_append, List.all_append, Bool.and_eq_true,
        Bool.and_eq_true]
      exact ⟨⟨by decide, all_ne_of_all_class hs.2.1 (by decide)⟩, by decide⟩
    rw [h1, ih (fun x hx => hsc x (List.mem_cons_of_mem s hx))]
    rfl

theorem avoid_nlBrace_scopeLines (scopes : List (List Char))
    (hsc : ∀ s ∈ scopes, cleanScopeTokB s = true) :
    containsSub "\n  \x7d".data (((scopes.map renderScopeLine).flatten)) = false := by
  induction scopes with
  | nil => exact containsSub_nil_ne (by decide)
  | cons s ss ih =>
    rw [List.map_cons, List.flatten_cons]
    have hs := cleanScopeTok_spec (hsc s (List.mem_cons_self s ss))
    have hline : containsSub "\n  \x7d".data (renderScopeLine s) = false := by
      rw [renderScopeLine]
      refine containsSub_append_false_rb (c := '"') ?_ (by decide) rfl (by decide)
      obtain ⟨c0, cs0, hc0⟩ := List.exists_cons_of_ne_nil hs.1
      refine containsSub_append_false_rb (c := c0) (by decide)
        (containsSub_false_tok '\n' (by decide) (by decide) hs.2.1) ?_ ?_
      · rw [hc0]
        rfl
      · have hc0m : scopeChar c0 = true := by
          refine List.all_eq_true.mp hs.2.1 c0 ?_
          rw [hc0]
          exact List.mem_cons_self c0 cs0
        exact not_mem_of_class hc0m (by decide)
    refine containsSub_append_false_lb (c := '"') hline
      (ih (fun x hx => hsc x (List.mem_cons_of_mem s hx))) ?_ (by decide)
    rw [renderScopeLine, List.getLast?_append_of_ne_nil _ (by decide)]
    rfl

theorem renderAnn_getLast (a : MethodAnn) :
    (renderAnn a).getLast? = some ';' := by
  rw [renderAnn, List.getLast?_append_of_ne_nil _ (by decide)]
  rfl

theorem avoid_nlBrace_renderAnn (a : MethodAnn) (h : annOK a = true) :
    containsSub "\n  \x7d".data (renderAnn a) = false := by
  obtain ⟨⟨rsuf, hres, hrsuf⟩, ⟨lsuf, hlev, hlsuf⟩, hsc⟩ := annOK_spec h
  obtain ⟨hrne, hrall, _⟩ := cleanWordTok_spec hrsuf
  obtain ⟨hlne, hlall, _⟩ := cleanWordTok_spec hlsuf
  have hshape : renderAnn a =
      "\n    option (libops.v1.options.required_scope) = \x7b".data ++
        ("\n      resource: ".data ++
          (("RESOURCE_TYPE_".data ++ rsuf) ++
            ("\n      level: ".data ++
              (("ACCESS_LEVEL_".data ++ lsuf) ++
                (((a.oauthScopes.map renderScopeLine).flatten) ++
                  "\n    \x7d;".data))))) := by
    rw [renderAnn, annInner, hres, hlev]
    simp only [List.append_assoc]
    rfl
  rw [hshape]
  have hRes : containsSub "\n  \x7d".data ("RESOURCE_TYPE_".data ++ rsuf) = false :=
    containsSub_false_tok (p := isWordChar) '\n' (by decide) (by decide)
      (by rw [List.all_append, Bool.and_eq_true]; exact ⟨by decide, hrall⟩)
  have hLev : containsSub "\n  \x7d".data ("ACCESS_LEVEL_".data ++ lsuf) = false :=
    containsSub_false_tok (p := isWordChar) '\n' (by decide) (by decide)
      (by rw [List.all_append, Bool.and_eq_true]; exact ⟨by decide, hlall⟩)
  have hFlatTail : containsSub "\n  \x7d".data
      (((a.oauthScopes.map renderScopeLine).flatten) ++ "\n    \x7d;".data) = false := by
    cases hscs : a.oauthScopes with
    | nil =>
      rw [List.map_nil, List.flatten_nil, List.nil_append]
      decide
    | cons s0 ss0 =>
      refine containsSub_append_false_lb (c := '"') ?_ (by decide)
        (scopeLines_getLast s0 ss0) (by decide)
      refine avoid_nlBrace_scopeLines (s0 :: ss0) ?_
      intro s hs2
      exact hsc s (by rw [hscs]; exact hs2)
  have hLevGroup : containsSub "\n  \x7d".data
      (("ACCESS_LEVEL_".data ++ lsuf) ++
        (((a.oauthScopes.map renderScopeLine).flatten) ++ "\n    \x7d;".data)) = false := by
    refine containsSub_append_false_lb (c := lsuf.getLast hlne) hLev hFlatTail ?_ ?_
    · rw [List.getLast?_append_of_ne_nil _ hlne]
      exact List.getLast?_eq_getLast _ hlne
    · exact not_mem_of_class (List.all_eq_true.mp hlall _ (List.getLast_mem hlne))
        (by decide)
  have hP2Group : containsSub "\n  \x7d".data
      ("\n      level: ".data ++
        (("ACCESS_LEVEL_".data ++ lsuf) ++
          (((a.oauthScopes.map renderScopeLine).flatten) ++ "\n    \x7d;".data))) = false := by
    refine containsSub_append_false_rb (c := 'A') (by decide) hLevGroup rfl (by decide)
  have hResGroup : containsSub "\n  \x7d".data
      (("RESOURCE_TYPE_".data ++ rsuf) ++
        ("\n      level: ".data ++
          (("ACCESS_LEVEL_".data ++ lsuf) ++
            (((a.oauthScopes.map renderScopeLine).flatten) ++ "\n    \x7d;".data)))) = false := by
    refine containsSub_append_false_lb (c := rsuf.getLast hrne) hRes hP2Group ?_ ?_
    · rw [List.getLast?_append_of_ne_nil _ hrne]
      exact List.getLast?_eq_getLast _ hrne
    · exact not_mem_of_class (List.all_eq_true.mp hrall _ (List.getLast_mem hrne))
        (by decide)
  have hP1Group : containsSub "\n  \x7d".data
      ("\n      resource: ".data ++
        (("RESOURCE_TYPE_".data ++ rsuf) ++
          ("\n      level: ".data ++
            (("ACCESS_LEVEL_".data ++ lsuf) ++
              (((a.oauthScopes.map renderScopeLine).flatten) ++ "\n    \x7d;".data))))) = false := by
    refine containsSub_append_false_rb (c := 'R') (by decide) hResGroup rfl (by decide)
  exact containsSub_append_false_lb (c := '\x7b') (by decide) hP1Group (by decide)
    (by decide)

theorem avoid_nlBrace_rpcBody (m : RpcDecl) (h : rpcOK m = true) :
    containsSub "\n  \x7d".data
      (match m.ann with
       | some a => renderAnn a
       | none => []) = false := by
  obtain ⟨_, _, _, hann⟩ := rpcOK_spec h
  cases hma : m.ann with
  | none => exact containsSub_nil_ne (by decide)
  | some a => exact avoid_nlBrace_renderAnn a (hann a hma)

theorem rpcBody_getLast (m : RpcDecl) :
    ∀ c, (match m.ann with
          | some a => renderAnn a
          | none => ([] : List Char)).getLast? = some c →
      c ∉ "\n  \x7d".data := by
  intro c hc
  cases hma : m.ann with
  | none =>
    rw [hma] at hc
    cases hc
  | some a =>
    rw [hma, renderAnn_getLast] at hc
    cases hc
    decide

theorem annInner_ne_nil (a : MethodAnn) : annInner a ≠ [] := by
  intro hc
  rw [annInner] at hc
  have := (List.append_eq_nil.mp hc).2
  exact absurd this (by decide)

theorem annInner_no_brace (a : MethodAnn) (h : annOK a = true) :
    (annInner a).all (fun c => c != '\x7d') = true := by
  obtain ⟨⟨rsuf, hres, hrsuf⟩, ⟨lsuf, hlev, hlsuf⟩, hsc⟩ := annOK_spec h
  obtain ⟨_, hrall, _⟩ := cleanWordTok_spec hrsuf
  obtain ⟨_, hlall, _⟩ := cleanWordTok_spec hlsuf
  rw [annInner, hres, hlev]
  simp only [List.all_append, Bool.and_eq_true, and_assoc]
  exact ⟨by decide, by decide, all_ne_of_all_class hrall (by decide), by decide,
    by decide, all_ne_of_all_class hlall (by decide),
    scopeLines_no_brace a.oauthScopes hsc, by decide⟩

theorem findOauthGo_tail :
    ∀ (scopes : List (List Char)),
      (∀ s ∈ scopes, cleanScopeTokB s = true) →
      ∀ fuel, scopes.length + 1 ≤ fuel →
        findOauthGo fuel
          (((scopes.map renderScopeLine).flatten) ++ "\n    ".data) = scopes := by
  intro scopes
  induction scopes with
  | nil =>
    intro _ fuel hf
    cases fuel with
    | zero => omega
    | succ f =>
      rw [List.map_nil, List.flatten_nil, List.nil_append]
      simp only [findOauthGo]
      rw [findFirst_none_of_lit matchOauth "oauth_scopes:".data matchOauth_lit
        (by decide) _ (by decide)]
  | cons s0 ss ih =>
    intro hsc fuel hf
    cases fuel with
    | zero =>
      rw [List.length_cons] at hf
      omega
    | succ f =>
      have hs0 : cleanScopeTokB s0 = true := hsc s0 (List.mem_cons_self s0 ss)
      have hshape5 : ((s0 :: ss).map renderScopeLine).flatten ++ "\n    ".data =
          "\n      ".data ++ ("oauth_scopes:".data ++ ' ' :: '"' ::
            (s0 ++ '"' :: (((ss.map renderScopeLine).flatten) ++ "\n    ".data))) := by
        rw [List.map_cons, List.flatten_cons, renderScopeLine]
        simp only [List.append_assoc]
        rfl
      rw [hshape5]
      simp only [findOauthGo]
      rw [findFirst_append_of_lit matchOauth "oauth_scopes:".data matchOauth_lit
        "\n      ".data _ (by decide)
        (fun c hc => by
          rw [show (("\n      ".data : List Char).getLast? : Option Char) =
            some ' ' from rfl] at hc
          cases hc
          decide)]
      rw [findFirst_head _ _ _ (matchOauth_eval s0
        (((ss.map renderScopeLine).flatten) ++ "\n    ".data) hs0)]
      show s0 :: findOauthGo f
        (((ss.map renderScopeLine).flatten) ++ "\n    ".data) = s0 :: ss
      rw [ih (fun s hs => hsc s (List.mem_cons_of_mem s0 hs)) f
        (by rw [List.length_cons] at hf; omega)]

theorem annInner_length (a : MethodAnn) :
    a.oauthScopes.length + 2 ≤ (annInner a).length := by
  rw [annInner]
  simp only [List.length_append, List.length_cons, List.length_nil]
  have hfl := scopeLines_length a.oauthScopes
  omega

theorem findOauth_annInner (a : MethodAnn) (h : annOK a = true) :
    findOauthScopes (annInner a) = a.oauthScopes := by
  obtain ⟨⟨rsuf, hres, hrsuf⟩, ⟨lsuf, hlev, hlsuf⟩, hsc⟩ := annOK_spec h
  obtain ⟨hrne, hrall, _⟩ := cleanWordTok_spec hrsuf
  obtain ⟨hlne, hlall, _⟩ := cleanWordTok_spec hlsuf
  have hlen := annInner_length a
  rw [findOauthScopes]
  cases hfn : (annInner a).length with
  | zero =>
    rw [hfn] at hlen
    omega
  | succ n =>
    cases hscs : a.oauthScopes with
    | nil =>
      have havoid : containsSub "oauth_scopes:".data (annInner a) = false := by
        rw [annInner, hres, hlev, hscs, List.map_nil, List.flatten_nil,
          List.append_nil]
        refine containsSub_append_false_rb (c := '\n') ?_ (by decide) rfl
          (by decide)
        refine containsSub_append_false_rb (c := 'A') ?_ ?_ rfl (by decide)
        · refine containsSub_append_false_rb (c := '\n') ?_ (by decide) rfl
            (by decide)
          refine containsSub_append_false_rb (c := 'R') (by decide) ?_ rfl
            (by decide)
          exact containsSub_false_tok (p := isWordChar) ':' (by decide)
            (by decide)
            (by rw [List.all_append, Bool.and_eq_true]
                exact ⟨by decide, hrall⟩)
        · exact containsSub_false_tok (p := isWordChar) ':' (by decide)
            (by decide)
            (by rw [List.all_append, Bool.and_eq_true]
                exact ⟨by decide, hlall⟩)
      simp only [findOauthGo]
      rw [findFirst_none_of_lit matchOauth "oauth_scopes:".data matchOauth_lit
        (by decide) _ havoid]
    | cons s0 ss =>
      have hsc2 : ∀ s ∈ s0 :: ss, cleanScopeTokB s = true :=
        fun s hs => hsc s (by rw [hscs]; exact hs)
      have hs0 : cleanScopeTokB s0 = true := hsc2 s0 (List.mem_cons_self s0 ss)
      have hshape4 : annInner a =
          ("\n      resource: ".data ++
            (("RESOURCE_TYPE_".data ++ rsuf) ++
              ("\n      level: ".data ++
                (("ACCESS_LEVEL_".data ++ lsuf) ++ "\n      ".data)))) ++
          ("oauth_scopes:".data ++ ' ' :: '"' ::
            (s0 ++ '"' ::
              (((ss.map renderScopeLine).flatten) ++ "\n    ".data))) := by
        rw [annInner, hres, hlev, hscs, List.map_cons, List.flatten_cons,
          renderScopeLine]
        simp only [List.append_assoc]
        rfl
      have havoid4 : containsSub "oauth_scopes:".data
          ("\n      resource: ".data ++
            (("RESOURCE_TYPE_".data ++ rsuf) ++
              ("\n      level: ".data ++
                (("ACCESS_LEVEL_".data ++ lsuf) ++ "\n      ".data)))) = false := by
        refine containsSub_append_false_rb (c := 'R') (by decide) ?_ rfl
          (by decide)
        refine containsSub_append_false_rb (c := '\n') ?_ ?_ rfl (by decide)
        · exact containsSub_false_tok (p := isWordChar) ':' (by decide)
            (by decide)
            (by rw [List.all_append, Bool.and_eq_true]
                exact ⟨by decide, hrall⟩)
        refine containsSub_append_false_rb (c := 'A') (by decide) ?_ rfl
          (by decide)
        refine containsSub_append_false_rb (c := '\n') ?_ (by decide) rfl
          (by decide)
        exact containsSub_false_tok (p := isWordChar) ':' (by decide)
          (by decide)
          (by rw [List.all_append, Bool.and_eq_true]
              exact ⟨by decide, hlall⟩)
      have hA4last : (("\n      resource: ".data ++
          (("RESOURCE_TYPE_".data ++ rsuf) ++
            ("\n      level: ".data ++
              (("ACCESS_LEVEL_".data ++ lsuf) ++ "\n      ".data)))) :
          List Char).getLast? = some ' ' := by
        rw [List.getLast?_append_of_ne_nil _ ?h1,
          List.getLast?_append_of_ne_nil _ ?h2,
          List.getLast?_append_of_ne_nil _ ?h3,
          List.getLast?_append_of_ne_nil _ ?h4]
        case h1 =>
          intro hc
          have h2 := (List.append_eq_nil.mp hc).2
          exact absurd ((List.append_eq_nil.mp h2).1) (by decide)
        case h2 =>
          intro hc
          exact absurd ((List.append_eq_nil.mp hc).1) (by decide)
        case h3 =>
          intro hc
          exact absurd ((List.append_eq_nil.mp hc).2) (by decide)
        case h4 => decide
        rfl
      have harith : ss.length + 1 ≤ n := by
        rw [hscs, List.length_cons, hfn] at hlen
        omega
      rw [hshape4]
      simp only [findOauthGo]
      rw [findFirst_append_of_lit matchOauth "oauth_scopes:".data matchOauth_lit
        _ _ havoid4
        (fun c hc => by rw [hA4last] at hc; cases hc; decide)]
      rw [findFirst_head _ _ _ (matchOauth_eval s0
        (((ss.map renderScopeLine).flatten) ++ "\n    ".data) hs0)]
      show s0 :: findOauthGo n
        (((ss.map renderScopeLine).flatten) ++ "\n    ".data) = s0 :: ss
      rw [findOauthGo_tail ss
        (fun s hs => hsc2 s (List.mem_cons_of_mem s0 hs)) n harith]

theorem extractAnn_nil : extractScopeAnnotation [] = none := rfl

theorem extractAnn_renderAnn (a : MethodAnn) (h : annOK a = true) :
    extractScopeAnnotation (renderAnn a) =
      some (String.mk a.resource, String.mk a.level,
        a.oauthScopes.map String.mk) := by
  obtain ⟨⟨rsuf, hres, hrsuf⟩, ⟨lsuf, hlev, hlsuf⟩, hsc⟩ := annOK_spec h
  obtain ⟨hrne, hrall, _⟩ := cleanWordTok_spec hrsuf
  obtain ⟨hlne, hlall, _⟩ := cleanWordTok_spec hlsuf
  have hscOpt : findFirst matchScopeOption (renderAnn a) =
      some ("\n    ".data, annInner a) := by
    have hshape : renderAnn a = "\n    ".data ++
        ("option".data ++ ' ' ::
          ("(libops.v1.options.required_scope)".data ++ ' ' :: '=' :: ' ' ::
            '\x7b' :: (annInner a ++ '\x7d' :: [';']))) := by
      rw [renderAnn]
      simp only [List.append_assoc]
      rfl
    rw [hshape, findFirst_append_of_lit matchScopeOption "option".data
      matchScopeOption_lit "\n    ".data _ (by decide)
      (fun c hc => by
        rw [show (("\n    ".data : List Char).getLast? : Option Char) =
          some ' ' from rfl] at hc
        cases hc
        decide),
      findFirst_head _ _ _ (matchScopeOption_eval (annInner a) [';']
        (annInner_ne_nil a) (annInner_no_brace a h))]
    rfl
  have hR : findFirst matchResource (annInner a) =
      some ("\n      ".data, a.resource) := by
    have hshape2 : annInner a = "\n      ".data ++
        ("resource:".data ++ ' ' ::
          ("RESOURCE_TYPE_".data ++
            (rsuf ++
              ("\n      level: ".data ++
                (("ACCESS_LEVEL_".data ++ lsuf) ++
                  (((a.oauthScopes.map renderScopeLine).flatten) ++
                    "\n    ".data)))))) := by
      rw [annInner, hres, hlev]
      simp only [List.append_assoc]
      rfl
    rw [hshape2, findFirst_append_of_lit matchResource "resource:".data
      matchResource_lit "\n      ".data _ (by decide)
      (fun c hc => by
        rw [show (("\n      ".data : List Char).getLast? : Option Char) =
          some ' ' from rfl] at hc
        cases hc
        decide),
      findFirst_head _ _ _ (matchResource_eval rsuf
        ("\n      level: ".data ++
          (("ACCESS_LEVEL_".data ++ lsuf) ++
            (((a.oauthScopes.map renderScopeLine).flatten) ++ "\n    ".data)))
        hrsuf
        (fun y hy => by
          rw [show (("\n      level: ".data ++
            (("ACCESS_LEVEL_".data ++ lsuf) ++
              (((a.oauthScopes.map renderScopeLine).flatten) ++
                "\n    ".data))).head? : Option Char) = some '\n' from rfl] at hy
          cases hy
          decide)),
      hres]
    rfl
  have hL : findFirst matchLevel (annInner a) =
      some ("\n      resource: ".data ++
        (("RESOURCE_TYPE_".data ++ rsuf) ++ "\n      ".data), a.level) := by
    have hshape3 : annInner a =
        ("\n      resource: ".data ++
          (("RESOURCE_TYPE_".data ++ rsuf) ++ "\n      ".data)) ++
        ("level:".data ++ ' ' ::
          ("ACCESS_LEVEL_".data ++
            (lsuf ++
              (((a.oauthScopes.map renderScopeLine).flatten) ++
                "\n    ".data)))) := by
      rw [annInner, hres, hlev]
      simp only [List.append_assoc]
      rfl
    have hA3 : containsSub "level:".data
        ("\n      resource: ".data ++
          (("RESOURCE_TYPE_".data ++ rsuf) ++ "\n      ".data)) = false := by
      refine containsSub_append_false_rb (c := 'R') (by decide) ?_ rfl
        (by decide)
      refine containsSub_append_false_rb (c := '\n') ?_ (by decide) rfl
        (by decide)
      exact containsSub_false_tok (p := isWordChar) ':' (by decide) (by decide)
        (by rw [List.all_append, Bool.and_eq_true]
            exact ⟨by decide, hrall⟩)
    have hA3last : (("\n      resource: ".data ++
        (("RESOURCE_TYPE_".data ++ rsuf) ++ "\n      ".data)) :
        List Char).getLast? = some ' ' := by
      rw [List.getLast?_append_of_ne_nil _ ?g1,
        List.getLast?_append_of_ne_nil _ ?g2]
      case g1 =>
        intro hc
        exact absurd ((List.append_eq_nil.mp hc).2) (by decide)
      case g2 =>
        intro hc
        exact absurd hc (by decide)
      rfl
    rw [hshape3, findFirst_append_of_lit matchLevel "level:".data
      matchLevel_lit _ _ hA3
      (fun c hc => by rw [hA3last] at hc; cases hc; decide),
      findFirst_head _ _ _ (matchLevel_eval lsuf
        (((a.oauthScopes.map renderScopeLine).flatten) ++ "\n    ".data)
        hlsuf
        (fun y hy => by
          rw [show ((((a.oauthScopes.map renderScopeLine).flatten) ++
            "\n    ".data).head? : Option Char) =
            some '\n' from scTail_head a.oauthScopes "    ".data] at hy
          cases hy
          decide)),
      hlev]
    simp
  simp only [ extractScopeAnnotation]
  rw [hscOpt]
  dsimp only
  rw [hR]
  dsimp only
  rw [hL]
  dsimp only
  rw [findOauth_annInner a h]

theorem renderRpc_ne_nil (m : RpcDecl) : renderRpc m ≠ [] := by
  intro hc
  rw [renderRpc] at hc
  exact absurd (List.append_eq_nil.mp hc).2 (by decide)

theorem flatRpcs_length (rpcs : List RpcDecl) :
    rpcs.length ≤ ((rpcs.map renderRpc).flatten).length := by
  induction rpcs with
  | nil => simp
  | cons m ms ih =>
    rw [List.map_cons, List.flatten_cons, List.length_append, List.length_cons]
    have h1 : 1 ≤ (renderRpc m).length := by
      cases hr : renderRpc m with
      | nil => exact absurd hr (renderRpc_ne_nil m)
      | cons c cs => simp
    omega

theorem renderService_length (sv : ServiceDecl) :
    sv.rpcs.length + 2 ≤ (renderService sv).length := by
  rw [renderService]
  simp only [List.length_append, List.length_cons, List.length_nil]
  have hfl := flatRpcs_length sv.rpcs
  omega

theorem findRpcsGo_tail :
    ∀ (rpcs : List RpcDecl),
      (∀ m ∈ rpcs, rpcOK m = true) →
      ∀ fuel, rpcs.length + 1 ≤ fuel →
        findRpcsGo fuel
          ("\n".data ++ (((rpcs.map renderRpc).flatten) ++ "\x7d\n\n".data)) =
          rpcs.map (fun m => (m.name, rpcBody m)) := by
  intro rpcs
  induction rpcs with
  | nil =>
    intro _ fuel hf
    cases fuel with
    | zero => omega
    | succ f =>
      rw [List.map_nil, List.flatten_nil, List.nil_append]
      simp only [findRpcsGo]
      rw [findFirst_none_of_lit matchRpc "rpc".data matchRpc_lit
        (by decide) _ (by decide)]
      rfl
  | cons m0 mt ih =>
    intro hok fuel hf
    cases fuel with
    | zero =>
      rw [List.length_cons] at hf
      omega
    | succ f =>
      have hm0 : rpcOK m0 = true := hok m0 (List.mem_cons_self m0 mt)
      obtain ⟨hm0n, hm0q, hm0s, _⟩ := rpcOK_spec hm0
      have hm0body : containsSub "\n  \x7d".data (rpcBody m0) = false :=
        avoid_nlBrace_rpcBody m0 hm0
      have hm0last : ∀ c, (rpcBody m0).getLast? = some c →
          c ∉ "\n  \x7d".data := rpcBody_getLast m0
      have hshape8 : "\n".data ++
          ((((m0 :: mt).map renderRpc).flatten) ++ "\x7d\n\n".data) =
          "\n  ".data ++
            ("rpc".data ++ ' ' ::
              (m0.name ++ ' ' :: '(' ::
                (m0.reqType ++ ')' :: ' ' ::
                  ("returns".data ++ ' ' :: '(' ::
                    (m0.resType ++ ')' :: ' ' :: '\x7b' ::
                      (rpcBody m0 ++
                        ("\n  \x7d".data ++
                          ("\n".data ++
                            (((mt.map renderRpc).flatten) ++
                              "\x7d\n\n".data))))))))) := by
        rw [List.map_cons, List.flatten_cons, renderRpc]
        simp only [List.append_assoc]
        rfl
      rw [hshape8]
      simp only [findRpcsGo]
      rw [findFirst_append_of_lit matchRpc "rpc".data matchRpc_lit
        "\n  ".data _ (by decide)
        (fun c hc => by
          rw [show (("\n  ".data : List Char).getLast? : Option Char) =
            some ' ' from rfl] at hc
          cases hc
          decide)]
      rw [findFirst_head _ _ _ (matchRpc_eval m0.name m0.reqType m0.resType
        (rpcBody m0)
        ("\n".data ++ (((mt.map renderRpc).flatten) ++ "\x7d\n\n".data))
        hm0n hm0q hm0s hm0body hm0last)]
      show (m0.name, rpcBody m0) ::
          findRpcsGo f
            ("\n".data ++ (((mt.map renderRpc).flatten) ++ "\x7d\n\n".data)) =
        (m0.name, rpcBody m0) :: mt.map (fun m => (m.name, rpcBody m))
      rw [ih (fun m hm => hok m (List.mem_cons_of_mem m0 hm)) f
        (by rw [List.length_cons] at hf; omega)]

theorem findRpcs_renderService (sv : ServiceDecl) (h : serviceOK sv = true) :
    findRpcs (renderService sv) = sv.rpcs.map (fun m => (m.name, rpcBody m)) := by
  obtain ⟨hname, hrpcs⟩ := serviceOK_spec h
  obtain ⟨hnne, hnall, hnbad⟩ := cleanWordTok_spec hname
  have hlen := renderService_length sv
  rw [findRpcs]
  cases hfn : (renderService sv).length with
  | zero =>
    rw [hfn] at hlen
    omega
  | succ n =>
    cases hrs : sv.rpcs with
    | nil =>
      have havoid : containsSub "rpc".data (renderService sv) = false := by
        rw [renderService, hrs, List.map_nil, List.flatten_nil, List.append_nil]
        refine containsSub_append_false_rb (c := '\x7d') ?_ (by decide) rfl
          (by decide)
        refine containsSub_append_false_rb (c := ' ') ?_ (by decide) rfl
          (by decide)
        exact containsSub_append_false_lb (c := ' ') (by decide)
          (hnbad "rpc".data (by decide)) rfl (by decide)
      simp only [findRpcsGo]
      rw [findFirst_none_of_lit matchRpc "rpc".data matchRpc_lit
        (by decide) _ havoid]
      rfl
    | cons m0 mt =>
      have hm0 : rpcOK m0 = true :=
        hrpcs m0 (by rw [hrs]; exact List.mem_cons_self m0 mt)
      obtain ⟨hm0n, hm0q, hm0s, _⟩ := rpcOK_spec hm0
      have hm0body : containsSub "\n  \x7d".data (rpcBody m0) = false :=
        avoid_nlBrace_rpcBody m0 hm0
      have hm0last : ∀ c, (rpcBody m0).getLast? = some c →
          c ∉ "\n  \x7d".data := rpcBody_getLast m0
      have hmt : ∀ m ∈ mt, rpcOK m = true :=
        fun m hm => hrpcs m (by rw [hrs]; exact List.mem_cons_of_mem m0 hm)
      have harith : mt.length + 1 ≤ n := by
        rw [hrs, List.length_cons, hfn] at hlen
        omega
      have hshape7 : renderService sv =
          ("service ".data ++ (sv.name ++ " \x7b\n  ".data)) ++
            ("rpc".data ++ ' ' ::
              (m0.name ++ ' ' :: '(' ::
                (m0.reqType ++ ')' :: ' ' ::
                  ("returns".data ++ ' ' :: '(' ::
                    (m0.resType ++ ')' :: ' ' :: '\x7b' ::
                      (rpcBody m0 ++
                        ("\n  \x7d".data ++
                          ("\n".data ++
                            (((mt.map renderRpc).flatten) ++
                              "\x7d\n\n".data))))))))) := by
        rw [renderService, hrs, List.map_cons, List.flatten_cons, renderRpc]
        simp only [List.append_assoc]
        rfl
      have havoid7 : containsSub "rpc".data
          ("service ".data ++ (sv.name ++ " \x7b\n  ".data)) = false := by
        refine containsSub_append_false_lb (c := ' ') (by decide) ?_ rfl
          (by decide)
        exact containsSub_append_false_rb (c := ' ')
          (hnbad "rpc".data (by decide)) (by decide) rfl (by decide)
      have hlast7 : (("service ".data ++ (sv.name ++ " \x7b\n  ".data)) :
          List Char).getLast? = some ' ' := by
        rw [List.getLast?_append_of_ne_nil _ ?k1,
          List.getLast?_append_of_ne_nil _ ?k2]
        case k1 =>
          intro hc
          exact absurd (List.append_eq_nil.mp hc).2 (by decide)
        case k2 => decide
        rfl
      rw [hshape7]
      simp only [findRpcsGo]
      rw [findFirst_append_of_lit matchRpc "rpc".data matchRpc_lit
        _ _ havoid7
        (fun c hc => by rw [hlast7] at hc; cases hc; decide)]
      rw [findFirst_head _ _ _ (matchRpc_eval m0.name m0.reqType m0.resType
        (rpcBody m0)
        ("\n".data ++ (((mt.map renderRpc).flatten) ++ "\x7d\n\n".data))
        hm0n hm0q hm0s hm0body hm0last)]
      show (m0.name, rpcBody m0) ::
          findRpcsGo n
            ("\n".data ++ (((mt.map renderRpc).flatten) ++ "\x7d\n\n".data)) =
        (m0.name, rpcBody m0) :: mt.map (fun m => (m.name, rpcBody m))
      rw [findRpcsGo_tail mt hmt n harith]

theorem renderService_ne_nil (sv : ServiceDecl) : renderService sv ≠ [] := by
  intro hc
  rw [renderService] at hc
  exact absurd (List.append_eq_nil.mp hc).2 (by decide)

theorem flatServices_length (svs : List ServiceDecl) :
    svs.length ≤ ((svs.map renderService).flatten).length := by
  induction svs with
  | nil => simp
  | cons sv svt ih =>
    rw [List.map_cons, List.flatten_cons, List.length_append, List.length_cons]
    have h1 : 1 ≤ (renderService sv).length := by
      cases hr : renderService sv with
      | nil => exact absurd hr (renderService_ne_nil sv)
      | cons c cs => simp
    omega

theorem wfProtoFile_spec {f : ProtoFile} (h : wfProtoFile f = true) :
    (∀ p, f.pkg = some p → cleanPkgB p = true) ∧
    (∀ sv ∈ f.services, serviceOK sv = true) ∧
    ((expectedFacts f).map (fun e => e.1)).Nodup := by
  rw [wfProtoFile, Bool.and_eq_true, Bool.and_eq_true] at h
  obtain ⟨⟨h1, h2⟩, h3⟩ := h
  refine ⟨?_, fun sv hsv => List.all_eq_true.mp h2 sv hsv, of_decide_eq_true h3⟩
  intro p hp
  rw [hp] at h1
  exact h1

theorem splitServicesGo_tail :
    ∀ (svs : List ServiceDecl) (sv : ServiceDecl),
      serviceOK sv = true → (∀ s ∈ svs, serviceOK s = true) →
      ∀ fuel, svs.length ≤ fuel →
        splitServicesGo fuel sv.name
          ("service".data ++ [' '] ++ sv.name ++ [' '] ++ ['\x7b'])
          ("\n".data ++ (((sv.rpcs.map renderRpc).flatten) ++
            ("\x7d\n\n".data ++ ((svs.map renderService).flatten)))) =
        (sv.name, renderService sv) ::
          svs.map (fun s => (s.name, renderService s)) := by
  intro svs
  induction svs with
  | nil =>
    intro sv hsv _ fuel _
    have hseg : ("service".data ++ [' '] ++ sv.name ++ [' '] ++ ['\x7b']) ++
        ("\n".data ++ (((sv.rpcs.map renderRpc).flatten) ++
          ("\x7d\n\n".data ++
            ((([] : List ServiceDecl).map renderService).flatten)))) =
        renderService sv := by
      rw [List.map_nil, List.flatten_nil, List.append_nil, renderService]
      simp only [List.append_assoc]
      rfl
    cases fuel with
    | zero =>
      simp only [splitServicesGo]
      rw [hseg]
      rfl
    | succ fl =>
      have hrpcsok := (serviceOK_spec hsv).2
      have havoid : containsSub "service".data
          ("\n".data ++ (((sv.rpcs.map renderRpc).flatten) ++
            ("\x7d\n\n".data ++
              ((([] : List ServiceDecl).map renderService).flatten)))) = false := by
        rw [List.map_nil, List.flatten_nil, List.append_nil]
        refine containsSub_append_false_lb (c := '\n') (by decide) ?_ rfl
          (by decide)
        exact containsSub_append_false_rb (c := '\x7d')
          (avoid_flattenRpcs "service".data (Or.inl rfl) sv.rpcs hrpcsok)
          (by decide) rfl (by decide)
      simp only [splitServicesGo]
      rw [findFirst_none_of_lit matchServiceHeader "service".data
        matchServiceHeader_lit (by decide) _ havoid]
      dsimp only
      rw [hseg]
      rfl
  | cons sv1 svt ih =>
    intro sv hsv hsvs fuel hf
    cases fuel with
    | zero =>
      rw [List.length_cons] at hf
      omega
    | succ fl =>
      have hsv1 : serviceOK sv1 = true := hsvs sv1 (List.mem_cons_self sv1 svt)
      have hname1 := (serviceOK_spec hsv1).1
      have hrpcsok := (serviceOK_spec hsv).2
      have hshape9 : "\n".data ++ (((sv.rpcs.map renderRpc).flatten) ++
          ("\x7d\n\n".data ++ (((sv1 :: svt).map renderService).flatten))) =
          ("\n".data ++ (((sv.rpcs.map renderRpc).flatten) ++ "\x7d\n\n".data)) ++
            ("service".data ++ ' ' ::
              (sv1.name ++ ' ' :: '\x7b' ::
                ("\n".data ++ (((sv1.rpcs.map renderRpc).flatten) ++
                  ("\x7d\n\n".data ++ ((svt.map renderService).flatten)))))) := by
        rw [List.map_cons, List.flatten_cons, renderService]
        simp only [List.append_assoc]
        rfl
      have havoid9 : containsSub "service".data
          ("\n".data ++ (((sv.rpcs.map renderRpc).flatten) ++
            "\x7d\n\n".data)) = false := by
        refine containsSub_append_false_lb (c := '\n') (by decide) ?_ rfl
          (by decide)
        exact containsSub_append_false_rb (c := '\x7d')
          (avoid_flattenRpcs "service".data (Or.inl rfl) sv.rpcs hrpcsok)
          (by decide) rfl (by decide)
      have hlast9 : (("\n".data ++ (((sv.rpcs.map renderRpc).flatten) ++
          "\x7d\n\n".data)) : List Char).getLast? = some '\n' := by
        rw [List.getLast?_append_of_ne_nil _ ?m1,
          List.getLast?_append_of_ne_nil _ ?m2]
        case m1 =>
          intro hc
          exact absurd (List.append_eq_nil.mp hc).2 (by decide)
        case m2 => decide
        rfl
      have hseg2 : ("service".data ++ [' '] ++ sv.name ++ [' '] ++ ['\x7b']) ++
          ("\n".data ++ (((sv.rpcs.map renderRpc).flatten) ++
            "\x7d\n\n".data)) = renderService sv := by
        rw [renderService]
        simp only [List.append_assoc]
        rfl
      simp only [splitServicesGo]
      rw [hshape9]
      rw [findFirst_append_of_lit matchServiceHeader "service".data
        matchServiceHeader_lit _ _ havoid9
        (fun c hc => by rw [hlast9] at hc; cases hc; decide)]
      rw [findFirst_head _ _ _ (matchServiceHeader_eval sv1.name
        ("\n".data ++ (((sv1.rpcs.map renderRpc).flatten) ++
          ("\x7d\n\n".data ++ ((svt.map renderService).flatten)))) hname1)]
      show (sv.name, ("service".data ++ [' '] ++ sv.name ++ [' '] ++ ['\x7b']) ++
          (("\n".data ++ (((sv.rpcs.map renderRpc).flatten) ++
            "\x7d\n\n".data)) ++ [])) ::
          splitServicesGo fl sv1.name
            ("service".data ++ [' '] ++ sv1.name ++ [' '] ++ ['\x7b'])
            ("\n".data ++ (((sv1.rpcs.map renderRpc).flatten) ++
              ("\x7d\n\n".data ++ ((svt.map renderService).flatten)))) =
        (sv.name, renderService sv) ::
          (sv1 :: svt).map (fun s => (s.name, renderService s))
      rw [List.append_nil, hseg2, List.map_cons]
      rw [ih sv1 hsv1 (fun s hs => hsvs s (List.mem_cons_of_mem sv1 hs)) fl
        (by rw [List.length_cons] at hf; omega)]

theorem splitServices_render (f : ProtoFile) (h : wfProtoFile f = true) :
    splitServices (renderProtoFile f) =
      f.services.map (fun sv => (sv.name, renderService sv)) := by
  obtain ⟨hpkc, hsvok, _⟩ := wfProtoFile_spec h
  cases hsvs : f.services with
  | nil =>
    cases hpk : f.pkg with
    | none =>
      have hcontent : renderProtoFile f = [] := by
        rw [renderProtoFile, hpk, hsvs]
        rfl
      rw [hcontent]
      rfl
    | some p =>
      have hpc := hpkc p hpk
      have hcontent : renderProtoFile f =
          "package ".data ++ p ++ ";\n\n".data := by
        rw [renderProtoFile, hpk, hsvs, List.map_nil, List.flatten_nil,
          List.append_nil]
      rw [hcontent]
      simp only [splitServices]
      rw [findFirst_none_of_lit matchServiceHeader "service".data
        matchServiceHeader_lit (by decide) _ (avoid_service_pkgLine p hpc)]
      rfl
  | cons sv0 svt =>
    have hsv0 : serviceOK sv0 = true :=
      hsvok sv0 (by rw [hsvs]; exact List.mem_cons_self sv0 svt)
    have hsvtok : ∀ s ∈ svt, serviceOK s = true :=
      fun s hs => hsvok s (by rw [hsvs]; exact List.mem_cons_of_mem sv0 hs)
    have hname0 := (serviceOK_spec hsv0).1
    have harith : svt.length ≤
        (("\n".data ++ (((sv0.rpcs.map renderRpc).flatten) ++
          ("\x7d\n\n".data ++ ((svt.map renderService).flatten)))) :
          List Char).length := by
      simp only [List.length_append, List.length_cons, List.length_nil]
      have hfs := flatServices_length svt
      omega
    cases hpk : f.pkg with
    | none =>
      have hshapeB : renderProtoFile f =
          "service".data ++ ' ' ::
            (sv0.name ++ ' ' :: '\x7b' ::
              ("\n".data ++ (((sv0.rpcs.map renderRpc).flatten) ++
                ("\x7d\n\n".data ++ ((svt.map renderService).flatten))))) := by
        rw [renderProtoFile, hpk, hsvs, List.map_cons, List.flatten_cons,
          renderService]
        simp only [List.append_assoc]
        rfl
      simp only [splitServices]
      rw [hshapeB]
      rw [findFirst_head _ _ _ (matchServiceHeader_eval sv0.name
        ("\n".data ++ (((sv0.rpcs.map renderRpc).flatten) ++
          ("\x7d\n\n".data ++ ((svt.map renderService).flatten)))) hname0)]
      show splitServicesGo
          ("\n".data ++ (((sv0.rpcs.map renderRpc).flatten) ++
            ("\x7d\n\n".data ++ ((svt.map renderService).flatten)))).length
          sv0.name
          ("service".data ++ [' '] ++ sv0.name ++ [' '] ++ ['\x7b'])
          ("\n".data ++ (((sv0.rpcs.map renderRpc).flatten) ++
            ("\x7d\n\n".data ++ ((svt.map renderService).flatten)))) =
        (sv0.name, renderService sv0) ::
          svt.map (fun s => (s.name, renderService s))
      rw [splitServicesGo_tail svt sv0 hsv0 hsvtok _ harith]
    | some p =>
      have hpc := hpkc p hpk
      have hcontent : renderProtoFile f =
          ("package ".data ++ p ++ ";\n\n".data) ++
            (((sv0 :: svt).map renderService).flatten) := by
        rw [renderProtoFile, hpk, hsvs]
      have hshapeA : renderProtoFile f =
          ("package ".data ++ (p ++ ";\n\n".data)) ++
            ("service".data ++ ' ' ::
              (sv0.name ++ ' ' :: '\x7b' ::
                ("\n".data ++ (((sv0.rpcs.map renderRpc).flatten) ++
                  ("\x7d\n\n".data ++ ((svt.map renderService).flatten)))))) := by
        rw [hcontent, List.map_cons, List.flatten_cons, renderService]
        simp only [List.append_assoc]
        rfl
      have hlastA : (("package ".data ++ (p ++ ";\n\n".data)) :
          List Char).getLast? = some '\n' := by
        rw [List.getLast?_append_of_ne_nil _ ?p1,
          List.getLast?_append_of_ne_nil _ ?p2]
        case p1 =>
          intro hc
          exact absurd (List.append_eq_nil.mp hc).2 (by decide)
        case p2 => decide
        rfl
      simp only [splitServices]
      rw [hshapeA]
      rw [findFirst_append_of_lit matchServiceHeader "service".data
        matchServiceHeader_lit ("package ".data ++ (p ++ ";\n\n".data)) _
        (avoid_service_pkgLine p hpc)
        (fun c hc => by rw [hlastA] at hc; cases hc; decide)]
      rw [findFirst_head _ _ _ (matchServiceHeader_eval sv0.name
        ("\n".data ++ (((sv0.rpcs.map renderRpc).flatten) ++
          ("\x7d\n\n".data ++ ((svt.map renderService).flatten)))) hname0)]
      show splitServicesGo
          ("\n".data ++ (((sv0.rpcs.map renderRpc).flatten) ++
            ("\x7d\n\n".data ++ ((svt.map renderService).flatten)))).length
          sv0.name
          ("service".data ++ [' '] ++ sv0.name ++ [' '] ++ ['\x7b'])
          ("\n".data ++ (((sv0.rpcs.map renderRpc).flatten) ++
            ("\x7d\n\n".data ++ ((svt.map renderService).flatten)))) =
        (sv0.name, renderService sv0) ::
          svt.map (fun s => (s.name, renderService s))
      rw [splitServicesGo_tail svt sv0 hsv0 hsvtok _ harith]

theorem extractPackageName_render (f : ProtoFile) (h : wfProtoFile f = true) :
    extractPackageName (renderProtoFile f) = pkgNameOf f := by
  obtain ⟨hpkc, hsvok, _⟩ := wfProtoFile_spec h
  cases hpk : f.pkg with
  | none =>
    have hcontent : renderProtoFile f =
        (f.services.map renderService).flatten := by
      rw [renderProtoFile, hpk]
      rfl
    simp only [extractPackageName]
    rw [hcontent, findFirst_none_of_lit matchPackage "package".data
      matchPackage_lit (by decide) _
      (avoid_package_flattenServices f.services hsvok)]
    simp [pkgNameOf, hpk]
  | some p =>
    have hpc := hpkc p hpk
    have hcontent : renderProtoFile f =
        ("package ".data ++ p ++ ";\n\n".data) ++
          ((f.services.map renderService).flatten) := by
      rw [renderProtoFile, hpk]
    have hshape : renderProtoFile f =
        "package".data ++ ' ' ::
          (p ++ ';' ::
            ("\n\n".data ++ ((f.services.map renderService).flatten))) := by
      rw [hcontent]
      simp only [List.append_assoc]
      rfl
    simp only [extractPackageName]
    rw [hshape, findFirst_head _ _ _ (matchPackage_eval p
      ("\n\n".data ++ ((f.services.map renderService).flatten)) hpc)]
    simp [pkgNameOf, hpk]

theorem parseProtoFile_eq (content : String) :
    parseProtoFile content =
      (splitServices content.data).foldl
        (outerF (extractPackageName content.data)) [] := rfl

theorem dictSet_append {α : Type} (d : List (String × α)) (k : String) (v : α)
    (h : ∀ e ∈ d, e.1 ≠ k) : dictSet d k v = d ++ [(k, v)] := by
  induction d with
  | nil => rfl
  | cons e rest ih =>
    obtain ⟨k', v'⟩ := e
    simp only [dictSet]
    rw [if_neg (h (k', v') (List.mem_cons_self _ _)),
      ih (fun e2 he2 => h e2 (List.mem_cons_of_mem _ he2))]
    rfl

theorem innerFold_eq (pkg svn : List Char) :
    ∀ (ms : List RpcDecl), (∀ m ∈ ms, rpcOK m = true) →
    ∀ (table : FactTable),
      (∀ e ∈ table, e.1 ∉ (factsOf pkg svn ms).map (fun e2 => e2.1)) →
      ((factsOf pkg svn ms).map (fun e2 => e2.1)).Nodup →
      (ms.map (fun m => (m.name, rpcBody m))).foldl (innerF pkg svn) table =
        table ++ factsOf pkg svn ms := by
  intro ms
  induction ms with
  | nil =>
    intro _ table _ _
    rw [List.map_nil, List.foldl_nil]
    simp only [factsOf, List.filterMap_nil, List.append_nil]
  | cons m mt ih =>
    intro hok table hfr hnd
    have hm : rpcOK m = true := hok m (List.mem_cons_self m mt)
    rw [List.map_cons, List.foldl_cons]
    cases hma : m.ann with
    | none =>
      have hstep : innerF pkg svn table (m.name, rpcBody m) = table := by
        simp only [innerF, rpcBody, hma, extractAnn_nil]
      rw [hstep]
      have hfacts : factsOf pkg svn (m :: mt) = factsOf pkg svn mt := by
        simp only [factsOf, List.filterMap_cons, hma, Option.map_none']
      rw [hfacts]
      exact ih (fun x hx => hok x (List.mem_cons_of_mem m hx)) table
        (by rw [hfacts] at hfr; exact hfr)
        (by rw [hfacts] at hnd; exact hnd)
    | some a =>
      have hann : annOK a = true := (rpcOK_spec hm).2.2.2 a hma
      have hfacts : factsOf pkg svn (m :: mt) =
          (mkKey pkg svn m.name,
           (String.mk a.resource, String.mk a.level,
            a.oauthScopes.map String.mk)) :: factsOf pkg svn mt := by
        simp only [factsOf, List.filterMap_cons, hma, Option.map_some']
      have hstep : innerF pkg svn table (m.name, rpcBody m) =
          dictSet table (mkKey pkg svn m.name)
            (String.mk a.resource, String.mk a.level,
             a.oauthScopes.map String.mk) := by
        simp only [innerF, rpcBody, hma]
        rw [extractAnn_renderAnn a hann]
        rfl
      have hkeys : ∀ e ∈ table, e.1 ≠ mkKey pkg svn m.name := by
        intro e he heq
        have h2 := hfr e he
        rw [hfacts, List.map_cons] at h2
        exact h2 (by rw [heq]; exact List.mem_cons_self _ _)
      have hmem_nf : mkKey pkg svn m.name ∉
          (factsOf pkg svn mt).map (fun e2 => e2.1) := by
        rw [hfacts, List.map_cons] at hnd
        exact (List.nodup_cons.mp hnd).1
      have hfr2 : ∀ e ∈ table ++ [(mkKey pkg svn m.name,
          (String.mk a.resource, String.mk a.level,
           a.oauthScopes.map String.mk))],
          e.1 ∉ (factsOf pkg svn mt).map (fun e2 => e2.1) := by
        intro e he
        rcases List.mem_append.mp he with h1 | h2
        · have h3 := hfr e h1
          rw [hfacts, List.map_cons] at h3
          exact fun hx => h3 (List.mem_cons_of_mem _ hx)
        · have he2 : e = (mkKey pkg svn m.name,
              (String.mk a.resource, String.mk a.level,
               a.oauthScopes.map String.mk)) := List.mem_singleton.mp h2
          rw [he2]
          exact hmem_nf
      have hnd2 : ((factsOf pkg svn mt).map (fun e2 => e2.1)).Nodup := by
        rw [hfacts, List.map_cons] at hnd
        exact (List.nodup_cons.mp hnd).2
      rw [hstep, dictSet_append table _ _ hkeys, hfacts,
        ih (fun x hx => hok x (List.mem_cons_of_mem m hx)) _ hfr2 hnd2,
        List.append_assoc]
      rfl

theorem outerFold_eq (pkg : List Char) :
    ∀ (svs : List ServiceDecl), (∀ sv ∈ svs, serviceOK sv = true) →
    ∀ (table : FactTable),
      (∀ e ∈ table, e.1 ∉
        ((svs.map (fun sv => factsOf pkg sv.name sv.rpcs)).flatten).map
          (fun e2 => e2.1)) →
      (((svs.map (fun sv => factsOf pkg sv.name sv.rpcs)).flatten).map
        (fun e2 => e2.1)).Nodup →
      (svs.map (fun sv => (sv.name, renderService sv))).foldl
        (outerF pkg) table =
        table ++ (svs.map (fun sv => factsOf pkg sv.name sv.rpcs)).flatten := by
  intro svs
  induction svs with
  | nil =>
    intro _ table _ _
    simp only [List.map_nil, List.foldl_nil, List.flatten_nil, List.append_nil]
  | cons sv svt ih =>
    intro hok table hfr hnd
    have hsv : serviceOK sv = true := hok sv (List.mem_cons_self sv svt)
    have hrpcsok := (serviceOK_spec hsv).2
    rw [List.map_cons, List.foldl_cons]
    have hfr1 : ∀ e ∈ table, e.1 ∉
        (factsOf pkg sv.name sv.rpcs).map (fun e2 => e2.1) := by
      intro e he hx
      exact hfr e he (by
        rw [List.map_cons, List.flatten_cons, List.map_append]
        exact List.mem_append_left _ hx)
    have hnd1 : ((factsOf pkg sv.name sv.rpcs).map (fun e2 => e2.1)).Nodup := by
      rw [List.map_cons, List.flatten_cons, List.map_append] at hnd
      exact (List.nodup_append.mp hnd).1
    have hstep : outerF pkg table (sv.name, renderService sv) =
        table ++ factsOf pkg sv.name sv.rpcs := by
      simp only [outerF]
      rw [findRpcs_renderService sv hsv,
        innerFold_eq pkg sv.name sv.rpcs hrpcsok table hfr1 hnd1]
    have hfr2 : ∀ e ∈ table ++ factsOf pkg sv.name sv.rpcs, e.1 ∉
        ((svt.map (fun s => factsOf pkg s.name s.rpcs)).flatten).map
          (fun e2 => e2.1) := by
      intro e he
      rcases List.mem_append.mp he with h1 | h2
      · intro hx
        exact hfr e h1 (by
          rw [List.map_cons, List.flatten_cons, List.map_append]
          exact List.mem_append_right _ hx)
      · rw [List.map_cons, List.flatten_cons, List.map_append] at hnd
        have hdisj := (List.nodup_append.mp hnd).2.2
        exact fun hx => hdisj (List.mem_map_of_mem _ h2) hx
    have hnd2 : (((svt.map (fun s => factsOf pkg s.name s.rpcs)).flatten).map
        (fun e2 => e2.1)).Nodup := by
      rw [List.map_cons, List.flatten_cons, List.map_append] at hnd
      exact (List.nodup_append.mp hnd).2.1
    rw [hstep,
      ih (fun s hs => hok s (List.mem_cons_of_mem sv hs)) _ hfr2 hnd2,
      List.map_cons, List.flatten_cons, List.append_assoc]

theorem parseProtoFile_render (f : ProtoFile) (h : wfProtoFile f = true) :
    parseProtoFile (String.mk (renderProtoFile f)) = expectedFacts f := by
  obtain ⟨_, hsvok, hnd⟩ := wfProtoFile_spec h
  rw [parseProtoFile_eq]
  rw [show (String.mk (renderProtoFile f)).data = renderProtoFile f from rfl]
  rw [splitServices_render f h, extractPackageName_render f h]
  have h0 : ∀ e ∈ ([] : FactTable), e.1 ∉
      ((f.services.map (fun sv =>
        factsOf (pkgNameOf f) sv.name sv.rpcs)).flatten).map
        (fun e2 => e2.1) :=
    fun e he => absurd he (List.not_mem_nil e)
  rw [outerFold_eq (pkgNameOf f) f.services hsvok [] h0 hnd, List.nil_append]
  rfl

/-- C1: for every well-formed schema file (clean identifiers, enum-shaped
resource and level values, distinct method keys), running the extractor
on the rendered file produces exactly one fact-table entry per method
whose option block carries `resource:` and `level:` values, keyed
`package.Service/Method` with the package defaulting to `libops.v1` when
the file has no package declaration, and whose resource type, access
level and ordered oauth-scope list equal the literal values written in
that option block; methods without an option block contribute nothing. -/
theorem c1_extraction_faithful (f : ProtoFile) (h : wfProtoFile f = true) :
    parseProtoFile (String.mk (renderProtoFile f)) = expectedFacts f :=
  parseProtoFile_render f h

theorem c1_extraction_faithful_witness :
    wfProtoFile exProtoFile = true ∧
      parseProtoFile (String.mk (renderProtoFile exProtoFile)) =
        expectedFacts exProtoFile :=
  ⟨by decide, c1_extraction_faithful exProtoFile (by decide)⟩
